import Mathlib

/-!
Verification of the geologo planar-arrangement engine.

Shallow embedding of the arrangement / face-tracing core of the `geologo`
repository (`src/lib/arrangement.ts`, `src/lib/geometry.ts`, and the fill
branch of `src/components/GeometryCanvas.tsx`) over the real numbers, with
proofs of the specification claims about it.

JavaScript `number` arithmetic is modelled by `ℝ`; `Math.atan2` by the
complex argument, `Math.hypot` by the Euclidean norm, and the JS remainder
operator `%` (which truncates toward zero) by `jsMod`.  The TypeScript field
`from` of a half-edge is named `src` here because `from` is a reserved word
in Lean.
-/

noncomputable section

open Classical

namespace Geologo

/-- Point with real coordinates, mirroring `type Pt = { x, y }`. -/
structure Pt where
  x : ℝ
  y : ℝ

instance : Inhabited Pt := ⟨⟨0, 0⟩⟩

/-- JavaScript `Math.hypot(dx, dy)`. -/
def hypot (a b : ℝ) : ℝ := Real.sqrt (a * a + b * b)

/-- JavaScript truncation toward zero (`Math.trunc`, the rounding used by `%`). -/
def jsTrunc (x : ℝ) : ℝ := if 0 ≤ x then (⌊x⌋ : ℝ) else (⌈x⌉ : ℝ)

/-- JavaScript remainder `a % b` (sign follows the dividend). -/
def jsMod (a b : ℝ) : ℝ := a - b * jsTrunc (a / b)

/-- JavaScript `Math.atan2 y x`, modelled by the complex argument of `x + y*I`
(range `(-π, π]`). -/
def atan2 (y x : ℝ) : ℝ := Complex.arg ⟨x, y⟩

/-- The constant `TAU = Math.PI * 2` from `arrangement.ts`. -/
def TAU : ℝ := Real.pi * 2

/-- The `normAngle` helper of `arrangement.ts`: reduce an angle to `[0, 2π)`. -/
def normAngle (a : ℝ) : ℝ :=
  let t := jsMod a TAU
  if t < 0 then t + TAU else t

/-- The `angleDeltaCCW` helper of `arrangement.ts`. -/
def angleDeltaCCW (a b : ℝ) : ℝ :=
  let d := normAngle b - normAngle a
  if d < 0 then d + TAU else d

/-- The `approxEq` helper of `arrangement.ts` (default `eps = 1e-9`). -/
def approxEq (a b : ℝ) (eps : ℝ := 1e-9) : Prop := |a - b| ≤ eps

/-! ## `geometry.ts`: line-circle intersection -/

/-- Quadratic coefficient `A` of `lineCircle` (`d·d` for the direction `d = p2 - p1`). -/
def lcA (p1 p2 : Pt) : ℝ :=
  (p2.x - p1.x) * (p2.x - p1.x) + (p2.y - p1.y) * (p2.y - p1.y)

/-- Quadratic coefficient `B` of `lineCircle` (`2 f·d` for `f = p1 - c`). -/
def lcB (p1 p2 c : Pt) : ℝ :=
  2 * ((p1.x - c.x) * (p2.x - p1.x) + (p1.y - c.y) * (p2.y - p1.y))

/-- Quadratic coefficient `C` of `lineCircle` (`f·f - r²`). -/
def lcC (p1 c : Pt) (r : ℝ) : ℝ :=
  (p1.x - c.x) * (p1.x - c.x) + (p1.y - c.y) * (p1.y - c.y) - r * r

/-- Discriminant `B² - 4AC` of `lineCircle`. -/
def lcDisc (p1 p2 c : Pt) (r : ℝ) : ℝ :=
  lcB p1 p2 c * lcB p1 p2 c - 4 * lcA p1 p2 * lcC p1 c r

/-- The `lineCircle` function of `geometry.ts`: intersections of the infinite
line through `p1, p2` with the circle `(c, r)`. -/
def lineCircle (p1 p2 c : Pt) (r : ℝ) : List Pt :=
  let dx := p2.x - p1.x
  let dy := p2.y - p1.y
  let A := lcA p1 p2
  let B := lcB p1 p2 c
  let disc := lcDisc p1 p2 c r
  if disc < -1e-12 then []
  else if |disc| < 1e-12 then
    let t := -B / (2 * A)
    [⟨p1.x + t * dx, p1.y + t * dy⟩]
  else
    let s := Real.sqrt (max 0 disc)
    let t1 := (-B + s) / (2 * A)
    let t2 := (-B - s) / (2 * A)
    [⟨p1.x + t1 * dx, p1.y + t1 * dy⟩, ⟨p1.x + t2 * dx, p1.y + t2 * dy⟩]

/-! ## `arrangement.ts`: data model -/

/-- Input line (infinite, through two points). -/
structure LineIn where
  p1 : Pt
  p2 : Pt

/-- Input circle. -/
structure CircleIn where
  c : Pt
  r : ℝ

/-- Edge kind tag, mirroring `'segment' | 'arc'`. -/
inductive EdgeKind where
  | segment
  | arc

/-- Half-edge.  The TypeScript `from` field is called `src` (`from` is reserved
in Lean); arc-only fields carry dummy defaults on segments, matching the
union type where they are simply absent. -/
structure HalfEdge where
  kind : EdgeKind
  src : ℕ
  dst : ℕ
  tangentAngleAtFrom : ℝ
  c : Pt := ⟨0, 0⟩
  r : ℝ := 0
  sweep : Bool := true
  largeArc : Bool := false

instance : Inhabited HalfEdge := ⟨{ kind := .segment, src := 0, dst := 0, tangentAngleAtFrom := 0 }⟩

/-- Graph node: a vertex point with its outgoing half-edge indices. -/
structure Node where
  pt : Pt
  out : List ℕ

instance : Inhabited Node := ⟨⟨⟨0, 0⟩, []⟩⟩

/-- The arrangement: nodes plus half-edges. -/
structure Arrangement where
  nodes : List Node
  edges : List HalfEdge

/-- Path segment for export/draw (`kind 'L'` or `kind 'A'`). -/
inductive PathSeg where
  | L (dst : Pt)
  | A (dst : Pt) (r : ℝ) (largeArc : Bool) (sweep : Bool) (c : Pt)

/-- Target point of a path segment (both kinds move the cursor to `to`). -/
def PathSeg.endPt : PathSeg → Pt
  | .L t => t
  | .A t _ _ _ _ => t

/-- Region path: a start point plus boundary segments. -/
structure RegionPath where
  start : Pt
  segs : List PathSeg

/-! ## `arrangement.ts`: incidence predicates -/

/-- Perpendicular-distance test of a vertex against an infinite line
(`onLine`, default `eps = 1e-6`). -/
def onLine (v : Pt) (L : LineIn) (eps : ℝ) : Prop :=
  let dx := L.p2.x - L.p1.x
  let dy := L.p2.y - L.p1.y
  let len := if hypot dx dy = 0 then 1 else hypot dx dy
  let nx := -dy / len
  let ny := dx / len
  |(v.x - L.p1.x) * nx + (v.y - L.p1.y) * ny| ≤ eps

/-- Scalar projection of a vertex along a line's unit direction (`lineParamT`). -/
def lineParamT (v : Pt) (L : LineIn) : ℝ :=
  let dx := L.p2.x - L.p1.x
  let dy := L.p2.y - L.p1.y
  let len := if hypot dx dy = 0 then 1 else hypot dx dy
  (v.x - L.p1.x) * (dx / len) + (v.y - L.p1.y) * (dy / len)

/-- Relative radius-tolerance test of a vertex against a circle (`onCircle`). -/
def onCircle (v : Pt) (C : CircleIn) (eps : ℝ) : Prop :=
  |hypot (v.x - C.c.x) (v.y - C.c.y) - C.r| ≤ eps * (1 + C.r)

/-- Polar angle of a point about a center, normalized to `[0, 2π)` (`angleAt`). -/
def angleAt (p : Pt) (c : Pt) : ℝ := normAngle (atan2 (p.y - c.y) (p.x - c.x))

/-! ## `arrangement.ts`: `buildArrangement`

The TypeScript builder pushes edges into a growing array while appending each
new index to `nodes[from].out`, then sorts every `out` list by tangent angle
(JS `Array.sort` is stable, and pushes happen in index order).  Equivalently,
and as embedded here: the edge list is the concatenation of each line's and
each circle's contribution, and each node's `out` list is the ascending list
of indices whose edge starts there, stably insertion-sorted by tangent angle. -/

/-- Comparison by a real-valued key (used for the stable sorts below). -/
def keyLE {α : Type} (f : α → ℝ) (a b : α) : Prop := f a ≤ f b

instance keyLE_total {α : Type} (f : α → ℝ) : IsTotal α (keyLE f) :=
  ⟨fun a b => le_total (f a) (f b)⟩

instance keyLE_trans {α : Type} (f : α → ℝ) : IsTrans α (keyLE f) :=
  ⟨fun _ _ _ h1 h2 => le_trans h1 h2⟩

/-- Vertices incident to a line, with their scalar parameters, in vertex order. -/
def lineVertexIdxs (vertices : List Pt) (eps : ℝ) (L : LineIn) : List (ℕ × ℝ) :=
  (List.range vertices.length).filterMap fun i =>
    let v := vertices.getD i default
    if onLine v L eps then some (i, lineParamT v L) else none

/-- Half-edges contributed by one line: segments between consecutive incident
vertices (sorted by parameter), each emitted as two opposite half-edges. -/
def lineEdges (vertices : List Pt) (eps : ℝ) (L : LineIn) : List HalfEdge :=
  let idxs := List.insertionSort (keyLE Prod.snd) (lineVertexIdxs vertices eps L)
  if idxs.length < 2 then []
  else
    (idxs.zip idxs.tail).flatMap fun ab =>
      let i := ab.1.1
      let j := ab.2.1
      if i = j then []
      else
        let p := vertices.getD i default
        let q := vertices.getD j default
        let ang := normAngle (atan2 (q.y - p.y) (q.x - p.x))
        [{ kind := .segment, src := i, dst := j, tangentAngleAtFrom := ang },
         { kind := .segment, src := j, dst := i,
           tangentAngleAtFrom := normAngle (ang + Real.pi) }]

/-- Vertices incident to a circle, with their polar angles, in vertex order. -/
def circleVertexIdxs (vertices : List Pt) (eps : ℝ) (C : CircleIn) : List (ℕ × ℝ) :=
  (List.range vertices.length).filterMap fun i =>
    let v := vertices.getD i default
    if onCircle v C eps then some (i, angleAt v C.c) else none

/-- Half-edges contributed by one circle: arcs between angularly consecutive
incident vertices with wrap-around, each emitted as a CCW and a CW half-edge. -/
def circleEdges (vertices : List Pt) (eps : ℝ) (C : CircleIn) : List HalfEdge :=
  let idxs := List.insertionSort (keyLE Prod.snd) (circleVertexIdxs vertices eps C)
  if idxs.length < 2 then []
  else
    (idxs.zip (idxs.rotate 1)).flatMap fun ab =>
      let a := ab.1
      let b := ab.2
      if a.1 = b.1 then []
      else
        let dccw := angleDeltaCCW a.2 b.2
        let largeArcCCW := decide (Real.pi < dccw)
        let largeArcCW := decide (Real.pi < TAU - dccw)
        [{ kind := .arc, src := a.1, dst := b.1, c := C.c, r := C.r,
           sweep := true, largeArc := largeArcCCW,
           tangentAngleAtFrom := normAngle (a.2 + Real.pi / 2) },
         { kind := .arc, src := b.1, dst := a.1, c := C.c, r := C.r,
           sweep := false, largeArc := largeArcCW,
           tangentAngleAtFrom := normAngle (b.2 - Real.pi / 2) }]

/-- The `buildArrangement` function of `arrangement.ts`. -/
def buildArrangement (lines : List LineIn) (circles : List CircleIn)
    (vertices : List Pt) (eps : ℝ := 1e-6) : Arrangement :=
  let edges := lines.flatMap (lineEdges vertices eps) ++
               circles.flatMap (circleEdges vertices eps)
  let nodes := (List.range vertices.length).map fun v =>
    { pt := vertices.getD v default,
      out := List.insertionSort
        (keyLE fun i => (edges.getD i default).tangentAngleAtFrom)
        ((edges.enum.filter fun p => p.2.src = v).map Prod.fst) }
  ⟨nodes, edges⟩

/-! ## `arrangement.ts`: face tracing -/

/-- The `arrivalAngle` helper: direction of travel of a half-edge at its
terminal vertex. -/
def arrivalAngle (e : HalfEdge) (A : Arrangement) : ℝ :=
  match e.kind with
  | .segment =>
    let p := (A.nodes.getD e.src default).pt
    let q := (A.nodes.getD e.dst default).pt
    normAngle (atan2 (q.y - p.y) (q.x - p.x))
  | .arc =>
    let v := (A.nodes.getD e.dst default).pt
    let th := angleAt v e.c
    if e.sweep then normAngle (th + Real.pi / 2) else normAngle (th - Real.pi / 2)

/-- Counterclockwise offset of an outgoing half-edge's tangent from a base
direction, normalized to `[0, 2π)` (the `d` of the selection loop in
`traceFaces`). -/
def deltaFromBase (A : Arrangement) (base : ℝ) (oe : ℕ) : ℝ :=
  normAngle ((A.edges.getD oe default).tangentAngleAtFrom - base)

/-- Accumulator pass of the best-successor selection loop of `traceFaces`:
scan the outgoing half-edges keeping the first one attaining the smallest
offset strictly above `1e-9` (`best` / `bestDelta`, with `none` standing for
the initial `best = -1 / bestDelta = Infinity`). -/
def chooseNextAux (A : Arrangement) (base : ℝ) :
    List ℕ → Option (ℕ × ℝ) → Option (ℕ × ℝ)
  | [], acc => acc
  | oe :: rest, acc =>
    let d := deltaFromBase A base oe
    let takeIt := 1e-9 < d ∧ ∀ pr : ℕ × ℝ, acc = some pr → d < pr.2
    chooseNextAux A base rest (if takeIt then some (oe, d) else acc)

/-- Successor selection of `traceFaces` at a given twin-direction `base`. -/
def chooseNext (A : Arrangement) (base : ℝ) (outs : List ℕ) : Option ℕ :=
  (chooseNextAux A base outs none).map Prod.fst

/-- The `visited[curr] = true` array write of `traceFaces`. -/
def mark (visited : ℕ → Bool) (curr : ℕ) : ℕ → Bool :=
  fun i => if i = curr then true else visited i

/-- One trace of the inner `while` loop of `traceFaces`, with explicit fuel
standing for the `guard < 10000` bound.  Returns the updated visited set and
`some loop` exactly when the walk closed back on `start`; every abandonment
(`visited` hit, dead-end vertex, no valid successor, fuel exhausted) returns
`none` after having marked the half-edges it consumed. -/
def traceFrom (A : Arrangement) (start : ℕ) :
    ℕ → ℕ → (ℕ → Bool) → List ℕ → ((ℕ → Bool) × Option (List ℕ))
  | 0, _, visited, _ => (visited, none)
  | fuel + 1, curr, visited, loop =>
    if visited curr then (visited, none)
    else
      let visited' := mark visited curr
      let loop' := loop ++ [curr]
      let e := A.edges.getD curr default
      let v := e.dst
      let base := normAngle (arrivalAngle e A + Real.pi)
      let outs := (A.nodes.getD v default).out
      if outs = [] then (visited', none)
      else
        match chooseNext A base outs with
        | none => (visited', none)
        | some nxt =>
          if nxt = start then (visited', some loop')
          else traceFrom A start fuel nxt visited' loop'

/-- Outer loop of `traceFaces`: try every half-edge index as a trace start,
threading the visited set and collecting the closed loops. -/
def traceFacesAux (A : Arrangement) :
    List ℕ → (ℕ → Bool) → List (List ℕ) → List (List ℕ)
  | [], _, loops => loops
  | start :: rest, visited, loops =>
    if visited start then traceFacesAux A rest visited loops
    else
      let res := traceFrom A start 10000 start visited []
      match res.2 with
      | some loop => traceFacesAux A rest res.1 (loops ++ [loop])
      | none => traceFacesAux A rest res.1 loops

/-- The `traceFaces` function of `arrangement.ts`. -/
def traceFaces (A : Arrangement) : List (List ℕ) :=
  traceFacesAux A (List.range A.edges.length) (fun _ => false) []

/-! ## `arrangement.ts`: path and polyline materialization -/

/-- The `loopToPath` function: turn a loop of half-edge indices into a
region path. -/
def loopToPath (A : Arrangement) (loop : List ℕ) : RegionPath :=
  match loop with
  | [] => ⟨⟨0, 0⟩, []⟩
  | idx0 :: _ =>
    let first := (A.edges.getD idx0 default).src
    let start := (A.nodes.getD first default).pt
    let segs := loop.map fun idx =>
      let e := A.edges.getD idx default
      let toPt := (A.nodes.getD e.dst default).pt
      match e.kind with
      | .segment => PathSeg.L toPt
      | .arc => PathSeg.A toPt e.r e.largeArc e.sweep e.c
    ⟨start, segs⟩

/-- Raw CCW angular delta from the cursor's polar angle about the arc center
to the endpoint's polar angle, as computed inline in `pathToPolyline`
(`dccw`), combined with the sweep direction (`d` before clamping). -/
def arcSpanRaw (cursor c toPt : Pt) (sweep : Bool) : ℝ :=
  let a0 := atan2 (cursor.y - c.y) (cursor.x - c.x)
  let a1 := atan2 (toPt.y - c.y) (toPt.x - c.x)
  let dccw := let d := jsMod (a1 - a0) TAU; if d < 0 then d + TAU else d
  if sweep then dccw else TAU - dccw

/-- The arc span after the `if (d < 1e-9) d = 0` clamp of `pathToPolyline`. -/
def arcSpanClamped (cursor c toPt : Pt) (sweep : Bool) : ℝ :=
  let d0 := arcSpanRaw cursor c toPt sweep
  if d0 < 1e-9 then 0 else d0

/-- Number of samples `pathToPolyline` emits for one arc:
`max(2, ceil(d / maxAngleStep))`. -/
def arcSteps (cursor c toPt : Pt) (sweep : Bool) (maxAngleStep : ℝ) : ℕ :=
  max 2 (Int.ceil (arcSpanClamped cursor c toPt sweep / maxAngleStep)).toNat

/-- One sample point of an arc subdivision: the point at parameter
`t = (i+1)/steps` when sweeping by `d` from start angle `a0`. -/
def arcSamplePoint (a0 d : ℝ) (sweep : Bool) (c : Pt) (r : ℝ) (steps : ℕ)
    (i : ℕ) : Pt :=
  let t := ((i : ℝ) + 1) / (steps : ℝ)
  let ang := if sweep then a0 + d * t else a0 - d * t
  ⟨c.x + r * Real.cos ang, c.y + r * Real.sin ang⟩

/-- The arc sample points of `pathToPolyline` (the inner `for i = 1..steps`
loop). -/
def arcSamples (cursor : Pt) (c : Pt) (r : ℝ) (sweep : Bool) (toPt : Pt)
    (maxAngleStep : ℝ) : List Pt :=
  (List.range (arcSteps cursor c toPt sweep maxAngleStep)).map
    (arcSamplePoint (atan2 (cursor.y - c.y) (cursor.x - c.x))
      (arcSpanClamped cursor c toPt sweep) sweep c r
      (arcSteps cursor c toPt sweep maxAngleStep))

/-- One step of the segment loop of `pathToPolyline`: advance the cursor and
append the segment's sample points. -/
def polyStep (maxAngleStep : ℝ) (st : Pt × List Pt) (s : PathSeg) : Pt × List Pt :=
  match s with
  | .L toPt => (toPt, st.2 ++ [toPt])
  | .A toPt r _ sweep c => (toPt, st.2 ++ arcSamples st.1 c r sweep toPt maxAngleStep)

/-- The point list of `pathToPolyline` before the closing-point check. -/
def pathToPolylineOpen (path : RegionPath) (maxAngleStep : ℝ) : List Pt :=
  (path.segs.foldl (polyStep maxAngleStep) (path.start, [path.start])).2

/-- The closing condition of `pathToPolyline`: the final sample differs from
the first point by more than `1e-9` in `x` or in `y`. -/
def pathCloses (path : RegionPath) (maxAngleStep : ℝ) : Prop :=
  ¬ approxEq ((pathToPolylineOpen path maxAngleStep).headD default).x
      ((pathToPolylineOpen path maxAngleStep).getLastD default).x ∨
  ¬ approxEq ((pathToPolylineOpen path maxAngleStep).headD default).y
      ((pathToPolylineOpen path maxAngleStep).getLastD default).y

/-- The `pathToPolyline` function of `arrangement.ts` (default
`maxAngleStep = π / 24`). -/
def pathToPolyline (path : RegionPath) (maxAngleStep : ℝ := Real.pi / 24) : List Pt :=
  let pts := pathToPolylineOpen path maxAngleStep
  if pathCloses path maxAngleStep then pts ++ [pts.headD default] else pts

/-- Closed-ring edge list `(poly[j], poly[i])` with `j = i - 1 mod length`, the
pairing both `polylineArea` and `pointInPolyline` iterate over. -/
def ringPairs (poly : List Pt) : List (Pt × Pt) :=
  (List.range poly.length).map fun i =>
    (poly.getD ((i + poly.length - 1) % poly.length) default, poly.getD i default)

/-- The `polylineArea` function: signed shoelace area. -/
def polylineArea (poly : List Pt) : ℝ :=
  0.5 * (ringPairs poly).foldl (fun a pr => a + (pr.1.x * pr.2.y - pr.2.x * pr.1.y)) 0

/-- The clamped projection parameter of `pointNearSegment`, including the
`len2 || 1` guard for a degenerate segment. -/
def clampT (vx vy wx wy : ℝ) : ℝ :=
  max 0 (min 1 ((wx * vx + wy * vy) /
    (if vx * vx + vy * vy = 0 then 1 else vx * vx + vy * vy)))

/-- The `pointNearSegment` helper (default `eps = 1e-6`): distance from `p` to
the clamped projection onto segment `a b` is at most `eps`. -/
def pointNearSegment (p a b : Pt) (eps : ℝ := 1e-6) : Bool :=
  let vx := b.x - a.x
  let vy := b.y - a.y
  let t := clampT vx vy (p.x - a.x) (p.y - a.y)
  decide (hypot (p.x - (a.x + t * vx)) (p.y - (a.y + t * vy)) ≤ eps)

/-- The ray-casting parity loop of `pointInPolyline` (its second `for` loop). -/
def rayParity (pt : Pt) (poly : List Pt) : Bool :=
  (ringPairs poly).foldl
    (fun inside pr =>
      let pj := pr.1
      let pi := pr.2
      let denom := if pj.y - pi.y = 0 then 1e-12 else pj.y - pi.y
      let inter := ((pi.y > pt.y) ≠ (pj.y > pt.y)) ∧
        pt.x < (pj.x - pi.x) * (pt.y - pi.y) / denom + pi.x
      if inter then !inside else inside)
    false

/-- The `pointInPolyline` function: boundary-inclusive containment. -/
def pointInPolyline (pt : Pt) (poly : List Pt) : Bool :=
  if (ringPairs poly).any (fun pr => pointNearSegment pt pr.1 pr.2) then true
  else rayParity pt poly

/-! ## `GeometryCanvas.tsx`: the fill operation's region selection -/

/-- One fill candidate (`{ path, poly, area }` in `onPointerUp`). -/
structure Candidate where
  path : RegionPath
  poly : List Pt
  area : ℝ

/-- The candidate list of the fill branch of `onPointerUp`: every traced loop
materialized, filtered to those containing the click point with unsigned
area above `1e-10`. -/
def fillCandidates (A : Arrangement) (q : Pt) : List Candidate :=
  ((traceFaces A).map fun loop =>
    let path := loopToPath A loop
    let poly := pathToPolyline path
    (⟨path, poly, |polylineArea poly|⟩ : Candidate)).filter
    fun obj => pointInPolyline q obj.poly && decide (1e-10 < obj.area)

/-- The fill selection: sort candidates ascending by area (stably, as JS
`Array.sort`) and take the first, `none` when there is no candidate. -/
def fillRegion (A : Arrangement) (q : Pt) : Option Candidate :=
  (List.insertionSort (keyLE Candidate.area) (fillCandidates A q)).head?

/-- Arrangement used to witness C2 at a concrete input. -/
def stepA : Arrangement :=
  ⟨[], [{ kind := .segment, src := 0, dst := 0, tangentAngleAtFrom := Real.pi }]⟩

/-! ## Claims C4 and C10: loops chain through shared vertices and close up -/

/-- Successive half-edges of a trace are linked: the second starts at the
vertex where the first ends. -/
def nextRel (A : Arrangement) (a b : ℕ) : Prop :=
  (A.edges.getD b default).src = (A.edges.getD a default).dst

/-- Structural invariant of a built arrangement: each node's `out` list only
holds indices of half-edges that start at that node. -/
def ArrInv (A : Arrangement) : Prop :=
  ∀ (v i : ℕ), i ∈ (A.nodes.getD v default).out → (A.edges.getD i default).src = v

/-- A closed traced loop: non-empty, consecutively chained, and wrapping
around from its last half-edge's end back to its first half-edge's start. -/
def LoopClosed (A : Arrangement) (L : List ℕ) : Prop :=
  L ≠ [] ∧ List.Chain' (nextRel A) L ∧
    (A.edges.getD (L.headD 0) default).src = (A.edges.getD (L.getLastD 0) default).dst

/-- The unit-square polyline ring used in concrete witnesses. -/
def sqRing : List Pt := [⟨0, 0⟩, ⟨1, 0⟩, ⟨1, 1⟩, ⟨0, 1⟩]

/-! ## Claim C7: sample counts of `pathToPolyline` (corrected: spans below
`1e-9` are clamped to zero before the `max(2, ceil(span/step))` count) -/

/-- Number of samples emitted for one path segment: `1` for a line-to, the
arc step count for an arc-to. -/
def segSampleCount (cursor : Pt) (s : PathSeg) (maxAngleStep : ℝ) : ℕ :=
  match s with
  | .L _ => 1
  | .A toPt _ _ sweep c => arcSteps cursor c toPt sweep maxAngleStep

/-- Cursor-threaded accumulation of per-segment sample counts. -/
def countStep (maxAngleStep : ℝ) (st : Pt × ℕ) (s : PathSeg) : Pt × ℕ :=
  (s.endPt, st.2 + segSampleCount st.1 s maxAngleStep)

/-- Total point count of the open polyline: the start point plus each
segment's samples. -/
def pathSampleCount (path : RegionPath) (maxAngleStep : ℝ) : ℕ :=
  (path.segs.foldl (countStep maxAngleStep) (path.start, 1)).2

/-- Arc step count as claim C7 words it: the raw span with no clamp. -/
def specArcSteps (cursor c toPt : Pt) (sweep : Bool) (maxAngleStep : ℝ) : ℕ :=
  max 2 (Int.ceil (arcSpanRaw cursor c toPt sweep / maxAngleStep)).toNat

/-- Sample points of one arc as claim C7 words them: identical to
`arcSamples` except that the raw span is used without the small-span clamp.
This is the claim-side definition used to refute the claim as stated. -/
def specArcSamples (cursor : Pt) (c : Pt) (r : ℝ) (sweep : Bool) (toPt : Pt)
    (maxAngleStep : ℝ) : List Pt :=
  (List.range (specArcSteps cursor c toPt sweep maxAngleStep)).map
    (arcSamplePoint (atan2 (cursor.y - c.y) (cursor.x - c.x))
      (arcSpanRaw cursor c toPt sweep) sweep c r
      (specArcSteps cursor c toPt sweep maxAngleStep))

/-- Claim-side polyline step using `specArcSamples`. -/
def specPolyStep (maxAngleStep : ℝ) (st : Pt × List Pt) (s : PathSeg) : Pt × List Pt :=
  match s with
  | .L toPt => (toPt, st.2 ++ [toPt])
  | .A toPt r _ sweep c => (toPt, st.2 ++ specArcSamples st.1 c r sweep toPt maxAngleStep)

/-- Claim-side open polyline. -/
def specPathToPolylineOpen (path : RegionPath) (maxAngleStep : ℝ) : List Pt :=
  (path.segs.foldl (specPolyStep maxAngleStep) (path.start, [path.start])).2

/-- Claim-side polyline with the closing-point rule of the claim. -/
def specPathToPolyline (path : RegionPath) (maxAngleStep : ℝ) : List Pt :=
  let pts := specPathToPolylineOpen path maxAngleStep
  if ¬ approxEq (pts.headD default).x (pts.getLastD default).x ∨
      ¬ approxEq (pts.headD default).y (pts.getLastD default).y then
    pts ++ [pts.headD default]
  else pts

/-- The concrete path of the C7 counterexample: one CCW arc of tiny angular
span `5e-10` on the unit circle. -/
def cexPath : RegionPath :=
  ⟨⟨1, 0⟩, [.A ⟨Real.cos 5e-10, Real.sin 5e-10⟩ 1 false true ⟨0, 0⟩]⟩

/-! ## The unit-square arrangement, evaluated concretely

Four unit-length lines through the four corners of the unit square; this is
the concrete input of claim C6 and of the witnesses of claims C1, C4 and
C10. -/

/-- The four corners of the unit square. -/
def sqVerts : List Pt := [⟨0, 0⟩, ⟨1, 0⟩, ⟨1, 1⟩, ⟨0, 1⟩]

/-- The four sides of the unit square as input lines. -/
def sqLines : List LineIn :=
  [⟨⟨0, 0⟩, ⟨1, 0⟩⟩, ⟨⟨1, 0⟩, ⟨1, 1⟩⟩, ⟨⟨1, 1⟩, ⟨0, 1⟩⟩, ⟨⟨0, 1⟩, ⟨0, 0⟩⟩]

/-- The arrangement of the unit square. -/
def sqA : Arrangement := buildArrangement sqLines [] sqVerts 1e-6

/-- The expected half-edge list of `sqA`. -/
def sqE : List HalfEdge :=
  [{ kind := .segment, src := 0, dst := 1, tangentAngleAtFrom := 0 },
   { kind := .segment, src := 1, dst := 0, tangentAngleAtFrom := Real.pi },
   { kind := .segment, src := 1, dst := 2, tangentAngleAtFrom := Real.pi / 2 },
   { kind := .segment, src := 2, dst := 1, tangentAngleAtFrom := Real.pi / 2 + Real.pi },
   { kind := .segment, src := 2, dst := 3, tangentAngleAtFrom := Real.pi },
   { kind := .segment, src := 3, dst := 2, tangentAngleAtFrom := 0 },
   { kind := .segment, src := 3, dst := 0, tangentAngleAtFrom := Real.pi / 2 + Real.pi },
   { kind := .segment, src := 0, dst := 3, tangentAngleAtFrom := Real.pi / 2 }]

/-- The expected node list of `sqA`. -/
def sqNodes : List Node :=
  [⟨⟨0, 0⟩, [0, 7]⟩, ⟨⟨1, 0⟩, [2, 1]⟩, ⟨⟨1, 1⟩, [4, 3]⟩, ⟨⟨0, 1⟩, [5, 6]⟩]

/-- The evaluated unit-square arrangement. -/
def sqAval : Arrangement := ⟨sqNodes, sqE⟩

/-! ## Claim C6: the unit-square area round-trip, and the square witnesses -/

/-- The polyline of the CCW square loop. -/
def sqPoly : List Pt := [⟨0, 0⟩, ⟨1, 0⟩, ⟨1, 1⟩, ⟨0, 1⟩, ⟨0, 0⟩]

/-! ## Theorems -/

/-! ## Basic facts about the JS-angle helpers -/

theorem jsTrunc_eq_floor {x : ℝ} (h : 0 ≤ x) : jsTrunc x = (⌊x⌋ : ℝ) := by
  simp [jsTrunc, h]

theorem jsTrunc_eq_ceil {x : ℝ} (h : x < 0) : jsTrunc x = (⌈x⌉ : ℝ) := by
  simp [jsTrunc, not_le.mpr h]

theorem two_pi_pos : (0 : ℝ) < TAU := by
  have := Real.pi_pos; simp only [TAU]; linarith

/-- On `[0, 2π)` the normalizer is the identity. -/
theorem normAngle_eq_self {a : ℝ} (h0 : 0 ≤ a) (h1 : a < TAU) : normAngle a = a := by
  have hτ := two_pi_pos
  have hdiv0 : 0 ≤ a / TAU := div_nonneg h0 (le_of_lt hτ)
  have hdiv1 : a / TAU < 1 := (div_lt_one hτ).mpr h1
  have hfl : ⌊a / TAU⌋ = 0 := by
    rw [Int.floor_eq_zero_iff]; constructor <;> simp_all
  have : jsMod a TAU = a := by
    rw [jsMod, jsTrunc_eq_floor hdiv0, hfl]; push_cast; ring
  rw [normAngle]
  simp only [this]
  rw [if_neg (not_lt.mpr h0)]

/-- On `[-2π, 0)` the normalizer adds one turn. -/
theorem normAngle_eq_add {a : ℝ} (h0 : -TAU ≤ a) (h1 : a < 0) :
    normAngle a = a + TAU := by
  have hτ := two_pi_pos
  rcases eq_or_lt_of_le h0 with heq | hlt
  · -- a = -TAU exactly: the remainder is 0 and no correction is added
    subst heq
    have hdiv : (-TAU) / TAU = -1 := by field_simp
    have hceil : (⌈(-TAU) / TAU⌉ : ℝ) = -1 := by
      rw [hdiv, show ((-1 : ℝ)) = ((-1 : ℤ) : ℝ) by norm_num, Int.ceil_intCast]
    have : jsMod (-TAU) TAU = 0 := by
      rw [jsMod, jsTrunc_eq_ceil (by rw [hdiv]; norm_num), hceil]
      ring
    rw [normAngle]
    simp only [this]
    rw [if_neg (by norm_num)]
    ring
  · have hdiv0 : -1 < a / TAU := by
      rw [neg_lt, ← neg_div]
      exact (div_lt_one hτ).mpr (by linarith)
    have hdiv1 : a / TAU < 0 := div_neg_of_neg_of_pos h1 hτ
    have hcl : ⌈a / TAU⌉ = 0 := by
      rw [Int.ceil_eq_zero_iff]
      constructor
      · linarith
      · linarith [le_of_lt hdiv1]
    have : jsMod a TAU = a := by
      rw [jsMod, jsTrunc_eq_ceil hdiv1, hcl]; push_cast; ring
    rw [normAngle]
    simp only [this]
    rw [if_pos h1]

/-- On `[2π, 4π)` the normalizer removes one turn. -/
theorem normAngle_eq_sub {a : ℝ} (h0 : TAU ≤ a) (h1 : a < TAU + TAU) :
    normAngle a = a - TAU := by
  have hτ := two_pi_pos
  have hdiv0 : 1 ≤ a / TAU := (le_div_iff₀ hτ).mpr (by linarith)
  have hdiv1 : a / TAU < 2 := by
    rw [div_lt_iff₀ hτ]; linarith
  have hfl : ⌊a / TAU⌋ = 1 := by
    apply Int.floor_eq_iff.mpr
    constructor
    · exact_mod_cast hdiv0
    · push_cast
      exact_mod_cast hdiv1
  have hmod : jsMod a TAU = a - TAU := by
    rw [jsMod, jsTrunc_eq_floor (by linarith), hfl]; push_cast; ring
  rw [normAngle]
  simp only [hmod]
  rw [if_neg (not_lt.mpr (by linarith))]

/-! ## Evaluation of `atan2` at axis directions -/

theorem atan2_zero_one : atan2 0 1 = 0 := by
  have h : (⟨1, 0⟩ : ℂ) = 1 := Complex.ext (by simp) (by simp)
  rw [atan2, h, Complex.arg_one]

theorem atan2_one_zero : atan2 1 0 = Real.pi / 2 := by
  have h : (⟨0, 1⟩ : ℂ) = Complex.I := Complex.ext (by simp) (by simp)
  rw [atan2, h, Complex.arg_I]

theorem atan2_zero_neg_one : atan2 0 (-1) = Real.pi := by
  have h : (⟨-1, 0⟩ : ℂ) = -1 := Complex.ext (by simp) (by simp)
  rw [atan2, h, Complex.arg_neg_one]

theorem atan2_neg_one_zero : atan2 (-1) 0 = -(Real.pi / 2) := by
  have h : (⟨0, -1⟩ : ℂ) = -Complex.I := Complex.ext (by simp) (by simp)
  rw [atan2, h, Complex.arg_neg_I]

theorem atan2_sin_cos {θ : ℝ} (h1 : -Real.pi < θ) (h2 : θ ≤ Real.pi) :
    atan2 (Real.sin θ) (Real.cos θ) = θ := by
  have h : (⟨Real.cos θ, Real.sin θ⟩ : ℂ) =
      (Real.cos θ : ℂ) + (Real.sin θ : ℂ) * Complex.I :=
    Complex.ext (by simp [Complex.cos_ofReal_re]) (by simp [Complex.sin_ofReal_re])
  rw [atan2, h, Complex.ofReal_cos, Complex.ofReal_sin,
    Complex.arg_cos_add_sin_mul_I ⟨h1, h2⟩]

theorem mark_self (visited : ℕ → Bool) (curr : ℕ) : mark visited curr curr = true := by
  simp [mark]

theorem mark_mono (visited : ℕ → Bool) (curr i : ℕ) (h : visited i = true) :
    mark visited curr i = true := by
  by_cases hic : i = curr <;> simp [mark, hic, h]

theorem mark_false (visited : ℕ → Bool) (curr i : ℕ) (h : mark visited curr i = false) :
    visited i = false ∧ i ≠ curr := by
  by_cases hic : i = curr <;> simp [mark, hic] at h ⊢
  exact h

/-! ## Pointwise `normAngle` values used in evaluations -/

theorem normAngle_zero : normAngle 0 = 0 :=
  normAngle_eq_self le_rfl two_pi_pos

theorem normAngle_pi : normAngle Real.pi = Real.pi := by
  have h := Real.pi_pos
  exact normAngle_eq_self (le_of_lt h) (by rw [TAU]; linarith)

theorem normAngle_pi_div_two : normAngle (Real.pi / 2) = Real.pi / 2 := by
  have h := Real.pi_pos
  exact normAngle_eq_self (by linarith) (by rw [TAU]; linarith)

theorem normAngle_three_pi_div_two :
    normAngle (Real.pi / 2 + Real.pi) = Real.pi / 2 + Real.pi := by
  have h := Real.pi_pos
  exact normAngle_eq_self (by linarith) (by rw [TAU]; linarith)

theorem normAngle_neg_pi_div_two :
    normAngle (-(Real.pi / 2)) = Real.pi / 2 + Real.pi := by
  have h := Real.pi_pos
  have := normAngle_eq_add (a := -(Real.pi / 2)) (by rw [TAU]; linarith) (by linarith)
  rw [this, TAU]; ring

theorem normAngle_two_pi : normAngle (Real.pi + Real.pi) = 0 := by
  have h := Real.pi_pos
  have := normAngle_eq_sub (a := Real.pi + Real.pi) (by rw [TAU]; linarith)
    (by rw [TAU]; linarith)
  rw [this, TAU]; ring

theorem normAngle_five_pi_div_two :
    normAngle (Real.pi / 2 + Real.pi + Real.pi) = Real.pi / 2 := by
  have h := Real.pi_pos
  have := normAngle_eq_sub (a := Real.pi / 2 + Real.pi + Real.pi) (by rw [TAU]; linarith)
    (by rw [TAU]; linarith)
  rw [this, TAU]; ring

theorem normAngle_neg_three_pi_div_two :
    normAngle (-(Real.pi / 2 + Real.pi)) = Real.pi / 2 := by
  have h := Real.pi_pos
  have := normAngle_eq_add (a := -(Real.pi / 2 + Real.pi)) (by rw [TAU]; linarith)
    (by linarith)
  rw [this, TAU]; ring

theorem pi_gt_small : (1e-9 : ℝ) < Real.pi := by
  have := Real.pi_gt_3141592; linarith

/-! ## Claim C9: a circle with fewer than two incident vertices contributes
no half-edges -/

/-- C9: if fewer than two supplied vertices pass the `onCircle` tolerance test
for a circle, that circle contributes no half-edges to `buildArrangement`;
in particular appending such a circle to the input leaves the arrangement
unchanged, so it can never bound a traced face. -/
theorem circle_without_two_vertices_contributes_nothing
    (vertices : List Pt) (eps : ℝ) (C : CircleIn)
    (h : (circleVertexIdxs vertices eps C).length < 2) :
    circleEdges vertices eps C = [] ∧
    ∀ lines circles,
      buildArrangement lines (circles ++ [C]) vertices eps =
        buildArrangement lines circles vertices eps := by
  have hlen : (List.insertionSort (keyLE Prod.snd)
      (circleVertexIdxs vertices eps C)).length < 2 := by
    rwa [(List.perm_insertionSort (keyLE Prod.snd)
      (circleVertexIdxs vertices eps C)).length_eq]
  have hempty : circleEdges vertices eps C = [] := by
    rw [circleEdges, if_pos hlen]
  refine ⟨hempty, fun lines circles => ?_⟩
  have hedges : (circles ++ [C]).flatMap (circleEdges vertices eps) =
      circles.flatMap (circleEdges vertices eps) := by
    rw [List.flatMap_append]
    simp [hempty]
  rw [buildArrangement, buildArrangement, hedges]

/-- Witness for C9 at a concrete input: the empty vertex list retains no
vertex of the unit circle, and appending that circle changes nothing. -/
theorem circle_without_two_vertices_contributes_nothing_witness :
    (circleVertexIdxs [] 1e-6 ⟨⟨0, 0⟩, 1⟩).length < 2 ∧
    circleEdges [] 1e-6 ⟨⟨0, 0⟩, 1⟩ = [] ∧
    buildArrangement [] [⟨⟨0, 0⟩, 1⟩] [] 1e-6 = buildArrangement [] [] [] 1e-6 := by
  have h : (circleVertexIdxs [] 1e-6 ⟨⟨0, 0⟩, 1⟩).length < 2 := by
    simp [circleVertexIdxs]
  have main := circle_without_two_vertices_contributes_nothing [] 1e-6 ⟨⟨0, 0⟩, 1⟩ h
  refine ⟨h, main.1, ?_⟩
  have := main.2 [] []
  simpa using this

/-! ## Claim C5: branch behaviour of `lineCircle` (corrected: the one-point
branch requires `|disc| < 1e-12` strictly, not `≤`) -/

/-- C5 counterexample to the claim as stated: a concrete line and circle whose
discriminant is exactly `-1e-12`, so `|disc| ≤ 1e-12`, yet `lineCircle`
returns two points rather than the single tangent point the claim requires. -/
theorem lineCircle_claim_boundary_cex :
    |lcDisc ⟨0, 1⟩ ⟨1, 1⟩ ⟨0, 0⟩ (Real.sqrt (1 - 2.5e-13))| ≤ 1e-12 ∧
    (lineCircle ⟨0, 1⟩ ⟨1, 1⟩ ⟨0, 0⟩ (Real.sqrt (1 - 2.5e-13))).length = 2 := by
  have hr2 : Real.sqrt (1 - 2.5e-13) * Real.sqrt (1 - 2.5e-13) = 1 - 2.5e-13 :=
    Real.mul_self_sqrt (by norm_num)
  have hdisc : lcDisc ⟨0, 1⟩ ⟨1, 1⟩ ⟨0, 0⟩ (Real.sqrt (1 - 2.5e-13)) = -1e-12 := by
    simp only [lcDisc, lcA, lcB, lcC]
    rw [hr2]
    norm_num
  have habs : |(-1e-12 : ℝ)| = 1e-12 := by
    rw [abs_neg, abs_of_nonneg] <;> norm_num
  constructor
  · rw [hdisc, habs]
  · rw [lineCircle]
    simp only [hdisc]
    rw [if_neg (by norm_num), if_neg (by rw [habs]; norm_num)]
    rfl

/-- C5 (amended: the single-tangent-point branch is taken when
`|disc| < 1e-12` strictly; at `|disc| = 1e-12` exactly the two-point branch
runs).  For a line through distinct points and any circle: the result is
empty iff `disc < -1e-12`; one point at `t = -B/2A` when `|disc| < 1e-12`;
otherwise two points at `t = (-B ± √disc)/2A` in that order. -/
theorem lineCircle_spec (p1 p2 c : Pt) (r : ℝ) (hne : p1 ≠ p2) :
    (lineCircle p1 p2 c r = [] ↔ lcDisc p1 p2 c r < -1e-12) ∧
    (|lcDisc p1 p2 c r| < 1e-12 →
      lineCircle p1 p2 c r =
        [⟨p1.x + -lcB p1 p2 c / (2 * lcA p1 p2) * (p2.x - p1.x),
          p1.y + -lcB p1 p2 c / (2 * lcA p1 p2) * (p2.y - p1.y)⟩]) ∧
    (¬ lcDisc p1 p2 c r < -1e-12 → ¬ |lcDisc p1 p2 c r| < 1e-12 →
      lineCircle p1 p2 c r =
        [⟨p1.x + (-lcB p1 p2 c + Real.sqrt (max 0 (lcDisc p1 p2 c r))) / (2 * lcA p1 p2) *
            (p2.x - p1.x),
          p1.y + (-lcB p1 p2 c + Real.sqrt (max 0 (lcDisc p1 p2 c r))) / (2 * lcA p1 p2) *
            (p2.y - p1.y)⟩,
         ⟨p1.x + (-lcB p1 p2 c - Real.sqrt (max 0 (lcDisc p1 p2 c r))) / (2 * lcA p1 p2) *
            (p2.x - p1.x),
          p1.y + (-lcB p1 p2 c - Real.sqrt (max 0 (lcDisc p1 p2 c r))) / (2 * lcA p1 p2) *
            (p2.y - p1.y)⟩]) := by
  refine ⟨⟨fun hres => ?_, fun hlt => ?_⟩, fun habs => ?_, fun hge habs => ?_⟩
  · by_contra hge
    rw [lineCircle, if_neg hge] at hres
    by_cases habs : |lcDisc p1 p2 c r| < 1e-12
    · rw [if_pos habs] at hres; cases hres
    · rw [if_neg habs] at hres; cases hres
  · rw [lineCircle, if_pos hlt]
  · have hge : ¬ lcDisc p1 p2 c r < -1e-12 := by
      intro hlt
      have : (1e-12 : ℝ) ≤ |lcDisc p1 p2 c r| := by
        rw [abs_of_neg (by linarith)]; linarith
      linarith
    rw [lineCircle, if_neg hge, if_pos habs]
  · rw [lineCircle, if_neg hge, if_neg habs]

/-- Witness for C5 on the spec's own example: circle at the origin with
radius 5 and the horizontal line through `(±10, 3)` meet in exactly
`(4, 3)` and `(-4, 3)`, in root order. -/
theorem lineCircle_spec_witness :
    (⟨-10, 3⟩ : Pt) ≠ ⟨10, 3⟩ ∧
    lineCircle ⟨-10, 3⟩ ⟨10, 3⟩ ⟨0, 0⟩ 5 = [⟨4, 3⟩, ⟨-4, 3⟩] := by
  have hne : (⟨-10, 3⟩ : Pt) ≠ ⟨10, 3⟩ := by
    intro hEq
    have := congrArg Pt.x hEq
    norm_num at this
  have hdisc : lcDisc ⟨-10, 3⟩ ⟨10, 3⟩ ⟨0, 0⟩ 5 = 25600 := by
    simp only [lcDisc, lcA, lcB, lcC]; norm_num
  have hA : lcA (⟨-10, 3⟩ : Pt) ⟨10, 3⟩ = 400 := by simp only [lcA]; norm_num
  have hB : lcB (⟨-10, 3⟩ : Pt) ⟨10, 3⟩ ⟨0, 0⟩ = -400 := by simp only [lcB]; norm_num
  have hs : Real.sqrt (max 0 (lcDisc ⟨-10, 3⟩ ⟨10, 3⟩ ⟨0, 0⟩ 5)) = 160 := by
    rw [hdisc, show max (0 : ℝ) 25600 = 25600 by norm_num,
      show (25600 : ℝ) = 160 ^ 2 by norm_num, Real.sqrt_sq (by norm_num)]
  have main := (lineCircle_spec ⟨-10, 3⟩ ⟨10, 3⟩ ⟨0, 0⟩ 5 hne).2.2
    (by rw [hdisc]; norm_num) (by rw [hdisc]; norm_num)
  refine ⟨hne, ?_⟩
  rw [main, hs, hA, hB]
  norm_num

/-! ## Claim C2: the successor choice of `traceFaces` -/

theorem chooseNextAux_none (A : Arrangement) (base : ℝ) :
    ∀ (l : List ℕ) (acc : Option (ℕ × ℝ)), chooseNextAux A base l acc = none →
      acc = none ∧ ∀ o ∈ l, deltaFromBase A base o ≤ 1e-9 := by
  intro l
  induction l with
  | nil =>
    intro acc h
    rw [chooseNextAux] at h
    exact ⟨h, by simp⟩
  | cons oe rest ih =>
    intro acc h
    simp only [chooseNextAux] at h
    by_cases htake : 1e-9 < deltaFromBase A base oe ∧
        ∀ pr : ℕ × ℝ, acc = some pr → deltaFromBase A base oe < pr.2
    · rw [if_pos htake] at h
      have := (ih _ h).1
      cases this
    · rw [if_neg htake] at h
      have H := ih acc h
      refine ⟨H.1, fun o ho => ?_⟩
      rcases List.mem_cons.mp ho with rfl | ho'
      · by_contra hlt
        push_neg at hlt
        exact htake ⟨hlt, fun pr hpr => by rw [H.1] at hpr; cases hpr⟩
      · exact H.2 o ho'

theorem chooseNextAux_spec (A : Arrangement) (base : ℝ) :
    ∀ (l : List ℕ) (acc : Option (ℕ × ℝ)),
      (∀ pr : ℕ × ℝ, acc = some pr → pr.2 = deltaFromBase A base pr.1 ∧ 1e-9 < pr.2) →
      ∀ r : ℕ × ℝ, chooseNextAux A base l acc = some r →
        (r.2 = deltaFromBase A base r.1 ∧ 1e-9 < r.2) ∧
        (acc = some r ∨ r.1 ∈ l) ∧
        (∀ o ∈ l, 1e-9 < deltaFromBase A base o → r.2 ≤ deltaFromBase A base o) ∧
        (∀ pr : ℕ × ℝ, acc = some pr → r.2 ≤ pr.2) := by
  intro l
  induction l with
  | nil =>
    intro acc hacc r hr
    rw [chooseNextAux] at hr
    refine ⟨hacc r hr, Or.inl hr, by simp, fun pr hpr => ?_⟩
    rw [hpr] at hr
    cases hr
    exact le_rfl
  | cons oe rest ih =>
    intro acc hacc r hr
    simp only [chooseNextAux] at hr
    by_cases htake : 1e-9 < deltaFromBase A base oe ∧
        ∀ pr : ℕ × ℝ, acc = some pr → deltaFromBase A base oe < pr.2
    · rw [if_pos htake] at hr
      have hgood : ∀ pr : ℕ × ℝ, some (oe, deltaFromBase A base oe) = some pr →
          pr.2 = deltaFromBase A base pr.1 ∧ 1e-9 < pr.2 := by
        intro pr hpr
        cases hpr
        exact ⟨rfl, htake.1⟩
      have H := ih _ hgood r hr
      refine ⟨H.1, ?_, fun o ho h19 => ?_, fun pr hpr => ?_⟩
      · rcases H.2.1 with heq | hmem
        · cases heq
          exact Or.inr (List.mem_cons_self _ _)
        · exact Or.inr (List.mem_cons_of_mem _ hmem)
      · rcases List.mem_cons.mp ho with rfl | ho'
        · exact H.2.2.2 (o, deltaFromBase A base o) rfl
        · exact H.2.2.1 o ho' h19
      · have h1 : r.2 ≤ deltaFromBase A base oe :=
          H.2.2.2 (oe, deltaFromBase A base oe) rfl
        have h2 := htake.2 pr hpr
        linarith
    · rw [if_neg htake] at hr
      have H := ih acc hacc r hr
      refine ⟨H.1, ?_, fun o ho h19 => ?_, H.2.2.2⟩
      · rcases H.2.1 with h | h
        · exact Or.inl h
        · exact Or.inr (List.mem_cons_of_mem _ h)
      · rcases List.mem_cons.mp ho with rfl | ho'
        · push_neg at htake
          obtain ⟨pr, hpr, hle⟩ := htake h19
          exact le_trans (H.2.2.2 pr hpr) hle
        · exact H.2.2.1 o ho' h19

/-- C2: at each step of `traceFaces` the chosen successor is an outgoing
half-edge of the terminal vertex whose CCW offset from the twin direction
`base`, normalized to `[0, 2π)`, exceeds `1e-9` and is minimal among all
outgoing half-edges exceeding that tolerance; when no outgoing half-edge has
such an offset the selection is empty and the trace step emits no face. -/
theorem traceFaces_successor_spec (A : Arrangement) (base : ℝ) (outs : List ℕ) :
    (∀ e, chooseNext A base outs = some e →
        e ∈ outs ∧ 1e-9 < deltaFromBase A base e ∧
        ∀ o ∈ outs, 1e-9 < deltaFromBase A base o →
          deltaFromBase A base e ≤ deltaFromBase A base o) ∧
    (chooseNext A base outs = none → ∀ o ∈ outs, deltaFromBase A base o ≤ 1e-9) ∧
    (∀ start fuel curr visited loop,
        chooseNext A (normAngle (arrivalAngle (A.edges.getD curr default) A + Real.pi))
          ((A.nodes.getD (A.edges.getD curr default).dst default).out) = none →
        (traceFrom A start (fuel + 1) curr visited loop).2 = none) := by
  refine ⟨fun e he => ?_, fun hn o ho => ?_, fun start fuel curr visited loop hcn => ?_⟩
  · rw [chooseNext] at he
    rcases Option.map_eq_some'.mp he with ⟨r, hr, hfst⟩
    have H := chooseNextAux_spec A base outs none (by intro pr hpr; cases hpr) r hr
    subst hfst
    rcases H.2.1 with h | h
    · cases h
    · exact ⟨h, H.1.1 ▸ H.1.2, fun o ho h19 => H.1.1 ▸ H.2.2.1 o ho h19⟩
  · rw [chooseNext, Option.map_eq_none'] at hn
    exact (chooseNextAux_none A base outs none hn).2 o ho
  · rw [traceFrom]
    by_cases hv : visited curr
    · rw [if_pos hv]
    · rw [if_neg hv]
      simp only
      by_cases ho : (A.nodes.getD (A.edges.getD curr default).dst default).out = []
      · rw [if_pos ho]
      · rw [if_neg ho, hcn]

theorem stepA_delta : deltaFromBase stepA 0 0 = Real.pi := by
  rw [deltaFromBase]
  simp only [stepA, List.getD_cons_zero, sub_zero]
  exact normAngle_pi

/-- Witness for C2: for the one-edge arrangement `stepA` with `base = 0`, the
selection picks edge `0` (offset `π`), and the minimality conclusion holds
there. -/
theorem traceFaces_successor_spec_witness :
    chooseNext stepA 0 [0] = some 0 ∧
    (0 ∈ [0] ∧ 1e-9 < deltaFromBase stepA 0 0 ∧
      ∀ o ∈ [0], 1e-9 < deltaFromBase stepA 0 o →
        deltaFromBase stepA 0 0 ≤ deltaFromBase stepA 0 o) := by
  have heval : chooseNext stepA 0 [0] = some 0 := by
    rw [chooseNext, chooseNextAux]
    simp only [stepA_delta]
    rw [if_pos ⟨pi_gt_small, fun pr hpr => by cases hpr⟩, chooseNextAux]
    rfl
  exact ⟨heval, (traceFaces_successor_spec stepA 0 [0]).1 0 heval⟩

/-! ## Claim C3: half-edges are partitioned across the traced loops -/

theorem traceFrom_mono (A : Arrangement) (start : ℕ) :
    ∀ (fuel curr : ℕ) (visited : ℕ → Bool) (loop : List ℕ) (i : ℕ),
      visited i = true → (traceFrom A start fuel curr visited loop).1 i = true := by
  intro fuel
  induction fuel with
  | zero =>
    intro curr visited loop i h
    rw [traceFrom]
    exact h
  | succ fuel ih =>
    intro curr visited loop i h
    simp only [traceFrom]
    split
    · exact h
    · split
      · exact mark_mono visited curr i h
      · split
        · exact mark_mono visited curr i h
        · split
          · exact mark_mono visited curr i h
          · exact ih _ _ _ i (mark_mono visited curr i h)

theorem traceFrom_loops (A : Arrangement) (start : ℕ) :
    ∀ (fuel curr : ℕ) (visited : ℕ → Bool) (loop : List ℕ) (vis' : ℕ → Bool)
      (L : List ℕ),
      (∀ x ∈ loop, visited x = true) → loop.Nodup →
      traceFrom A start fuel curr visited loop = (vis', some L) →
      L.Nodup ∧
      ∃ ext, L = loop ++ ext ∧ ∀ x ∈ ext, visited x = false ∧ vis' x = true := by
  intro fuel
  induction fuel with
  | zero =>
    intro curr visited loop vis' L _ _ hL
    rw [traceFrom] at hL
    simp at hL
  | succ fuel ih =>
    intro curr visited loop vis' L hvis hnd hL
    simp only [traceFrom] at hL
    split at hL
    · simp at hL
    · next hv =>
      have hvcurr : visited curr = false := by
        cases hcv : visited curr
        · rfl
        · exact absurd hcv hv
      have hcm : curr ∉ loop := fun hmem => by
        rw [hvis curr hmem] at hvcurr
        cases hvcurr
      have hnd' : (loop ++ [curr]).Nodup := by
        rw [List.nodup_append]
        exact ⟨hnd, List.nodup_singleton curr,
          fun a ha hb => by
            rw [List.mem_singleton] at hb
            exact hcm (hb ▸ ha)⟩
      have hvis' : ∀ x ∈ loop ++ [curr], mark visited curr x = true := by
        intro x hx
        rcases List.mem_append.mp hx with hx | hx
        · exact mark_mono visited curr x (hvis x hx)
        · rw [List.mem_singleton] at hx
          exact hx ▸ mark_self visited curr
      split at hL
      · simp at hL
      · split at hL
        · simp at hL
        · next nxt hcn =>
          split at hL
          · -- the walk closed: the emitted loop is `loop ++ [curr]`
            injection hL with h1 h2
            injection h2 with h2
            subst h2
            subst h1
            refine ⟨hnd', [curr], rfl, fun x hx => ?_⟩
            rw [List.mem_singleton] at hx
            rw [hx]
            exact ⟨hvcurr, mark_self visited curr⟩
          · -- recursive step
            have H := ih nxt (mark visited curr) (loop ++ [curr]) vis' L hvis' hnd' hL
            have hfst : (traceFrom A start fuel nxt (mark visited curr)
                (loop ++ [curr])).1 = vis' := by rw [hL]
            refine ⟨H.1, ?_⟩
            obtain ⟨ext, hext, hfresh⟩ := H.2
            refine ⟨curr :: ext, by rw [hext, List.append_assoc]; rfl, fun x hx => ?_⟩
            rcases List.mem_cons.mp hx with hxc | hx'
            · rw [hxc]
              refine ⟨hvcurr, ?_⟩
              rw [← hfst]
              exact traceFrom_mono A start fuel nxt (mark visited curr) (loop ++ [curr])
                curr (mark_self visited curr)
            · obtain ⟨hxf, hxt⟩ := hfresh x hx'
              exact ⟨(mark_false visited curr x hxf).1, hxt⟩

theorem traceFacesAux_nodup (A : Arrangement) :
    ∀ (starts : List ℕ) (visited : ℕ → Bool) (loops : List (List ℕ)),
      (∀ L ∈ loops, ∀ x ∈ L, visited x = true) →
      loops.flatten.Nodup →
      (traceFacesAux A starts visited loops).flatten.Nodup := by
  intro starts
  induction starts with
  | nil =>
    intro visited loops _ hnd
    rw [traceFacesAux]
    exact hnd
  | cons start rest ih =>
    intro visited loops hvis hnd
    simp only [traceFacesAux]
    split
    · exact ih visited loops hvis hnd
    · rcases hres : traceFrom A start 10000 start visited [] with ⟨vis2, r⟩
      have hmono : ∀ i, visited i = true → vis2 i = true := by
        intro i h
        have := traceFrom_mono A start 10000 start visited [] i h
        rw [hres] at this
        exact this
      cases r with
      | none =>
        exact ih vis2 loops (fun L hL x hx => hmono x (hvis L hL x hx)) hnd
      | some loop =>
        have H := traceFrom_loops A start 10000 start visited [] vis2 loop
          (by simp) List.nodup_nil hres
        obtain ⟨ext, hext, hfresh⟩ := H.2
        rw [List.nil_append] at hext
        subst hext
        apply ih vis2 (loops ++ [loop])
        · intro L hL x hx
          rcases List.mem_append.mp hL with hL | hL
          · exact hmono x (hvis L hL x hx)
          · rw [List.mem_singleton] at hL
            exact (hfresh x (hL ▸ hx)).2
        · rw [List.flatten_append]
          rw [List.nodup_append]
          refine ⟨hnd, by simpa using H.1, fun a ha hb => ?_⟩
          have htrue : visited a = true := by
            rcases List.mem_flatten.mp ha with ⟨l, hl, hal⟩
            exact hvis l hl a hal
          have hfalse : visited a = false := by
            have : a ∈ loop := by simpa using hb
            exact (hfresh a this).1
          rw [htrue] at hfalse
          cases hfalse

/-- C3: across one call of `traceFaces`, every half-edge index occurs at most
once over all returned loops combined — the loops are pairwise disjoint and
no loop contains a duplicate index (`Nodup` of the concatenation). -/
theorem traceFaces_partition (A : Arrangement) : (traceFaces A).flatten.Nodup := by
  rw [traceFaces]
  exact traceFacesAux_nodup A (List.range A.edges.length) (fun _ => false) []
    (by simp) (by simp)

theorem chooseNext_mem (A : Arrangement) (base : ℝ) (outs : List ℕ) (e : ℕ)
    (h : chooseNext A base outs = some e) : e ∈ outs := by
  rw [chooseNext] at h
  rcases Option.map_eq_some'.mp h with ⟨r, hr, hfst⟩
  have H := chooseNextAux_spec A base outs none (fun pr hpr => by cases hpr) r hr
  rcases H.2.1 with h' | h'
  · cases h'
  · exact hfst ▸ h'

theorem buildArrangement_inv (lines : List LineIn) (circles : List CircleIn)
    (vertices : List Pt) (eps : ℝ) :
    ArrInv (buildArrangement lines circles vertices eps) := by
  intro v i hi
  rw [buildArrangement] at hi
  simp only at hi
  by_cases hv : v < vertices.length
  · rw [List.getD_eq_getElem _ _ (by simpa using hv), List.getElem_map,
      List.getElem_range] at hi
    simp only [List.mem_insertionSort, List.mem_map] at hi
    obtain ⟨p, hp, hfst⟩ := hi
    rw [List.mem_filter] at hp
    obtain ⟨hpe, hps⟩ := hp
    rcases p with ⟨j, e⟩
    obtain ⟨hj, hje⟩ := List.mem_enum hpe
    simp only at hfst hps
    subst hfst
    rw [buildArrangement]
    simp only
    rw [List.getD_eq_getElem _ _ hj, ← hje]
    exact of_decide_eq_true hps
  · rw [List.getD_eq_default] at hi
    · cases hi
    · simpa using not_lt.mp hv

theorem traceFrom_chain (A : Arrangement) (hA : ArrInv A) (start : ℕ) :
    ∀ (fuel curr : ℕ) (visited : ℕ → Bool) (loop : List ℕ) (vis' : ℕ → Bool)
      (L : List ℕ),
      (loop = [] ∧ curr = start ∨
        (loop.headD 0 = start ∧ loop ≠ [] ∧ List.Chain' (nextRel A) loop ∧
          (A.edges.getD curr default).src =
            (A.edges.getD (loop.getLastD 0) default).dst)) →
      traceFrom A start fuel curr visited loop = (vis', some L) →
      L ≠ [] ∧ L.headD 0 = start ∧ List.Chain' (nextRel A) L ∧
        (A.edges.getD start default).src =
          (A.edges.getD (L.getLastD 0) default).dst := by
  intro fuel
  induction fuel with
  | zero =>
    intro curr visited loop vis' L _ hL
    rw [traceFrom] at hL
    simp at hL
  | succ fuel ih =>
    intro curr visited loop vis' L hinv hL
    simp only [traceFrom] at hL
    split at hL
    · simp at hL
    · split at hL
      · simp at hL
      · split at hL
        · simp at hL
        · next nxt hcn =>
          -- facts shared by the closing and the recursive branch
          have hmem := chooseNext_mem A _ _ nxt hcn
          have hsrc : (A.edges.getD nxt default).src =
              (A.edges.getD curr default).dst :=
            hA (A.edges.getD curr default).dst nxt hmem
          have hhead : (loop ++ [curr]).headD 0 = start ∨
              (loop = [] ∧ curr = start) := by
            rcases hinv with ⟨hl, hc⟩ | ⟨hh, hne, _, _⟩
            · subst hl; exact Or.inr ⟨rfl, hc⟩
            · left
              cases loop with
              | nil => exact absurd rfl hne
              | cons a t => simpa using hh
          have hhead' : (loop ++ [curr]).headD 0 = start := by
            rcases hhead with h | ⟨hl, hc⟩
            · exact h
            · subst hl; subst hc; rfl
          have hchain : List.Chain' (nextRel A) (loop ++ [curr]) := by
            rw [List.chain'_append]
            rcases hinv with ⟨hl, _⟩ | ⟨_, hne, hch, hlast⟩
            · subst hl
              exact ⟨List.chain'_nil, List.chain'_singleton curr, by simp⟩
            · refine ⟨hch, List.chain'_singleton curr, fun x hx y hy => ?_⟩
              rw [List.head?_cons, Option.mem_some_iff] at hy
              subst hy
              have hxl : x = loop.getLastD 0 := by
                cases loop with
                | nil => exact absurd rfl hne
                | cons a t =>
                  rw [List.getLast?_eq_getLast _ (by simp), Option.mem_some_iff] at hx
                  rw [← hx, List.getLastD_eq_getLast?, List.getLast?_eq_getLast _ (by simp)]
                  rfl
              rw [nextRel, hxl]
              exact hlast
          split at hL
          · next hns =>
            -- the walk closed on `start`
            injection hL with h1 h2
            injection h2 with h2
            subst h2
            refine ⟨by simp, hhead', hchain, ?_⟩
            rw [List.getLastD_concat, ← hns, hsrc]
          · -- recursive step
            refine ih nxt (mark visited curr) (loop ++ [curr]) vis' L (Or.inr ?_) hL
            exact ⟨hhead', by simp, hchain, by rw [List.getLastD_concat]; exact hsrc⟩

theorem traceFacesAux_closed (A : Arrangement) (hA : ArrInv A) :
    ∀ (starts : List ℕ) (visited : ℕ → Bool) (loops : List (List ℕ)),
      (∀ L ∈ loops, LoopClosed A L) →
      ∀ L ∈ traceFacesAux A starts visited loops, LoopClosed A L := by
  intro starts
  induction starts with
  | nil =>
    intro visited loops hloops L hL
    rw [traceFacesAux] at hL
    exact hloops L hL
  | cons start rest ih =>
    intro visited loops hloops L hL
    simp only [traceFacesAux] at hL
    split at hL
    · exact ih visited loops hloops L hL
    · rcases hres : traceFrom A start 10000 start visited [] with ⟨vis2, r⟩
      rw [hres] at hL
      cases r with
      | none => exact ih vis2 loops hloops L hL
      | some loop =>
        refine ih vis2 (loops ++ [loop]) (fun L' hL' => ?_) L hL
        rcases List.mem_append.mp hL' with h | h
        · exact hloops L' h
        · rw [List.mem_singleton] at h
          subst h
          have H := traceFrom_chain A hA start 10000 start visited [] vis2 L'
            (Or.inl ⟨rfl, rfl⟩) hres
          exact ⟨H.1, H.2.2.1, by rw [H.2.1]; exact H.2.2.2⟩

/-- C4: every loop returned by `traceFaces` on a built arrangement is
non-empty and its last half-edge's terminal vertex equals its first
half-edge's origin vertex. -/
theorem traceFaces_loops_closed (lines : List LineIn) (circles : List CircleIn)
    (vertices : List Pt) (eps : ℝ) :
    ∀ L ∈ traceFaces (buildArrangement lines circles vertices eps),
      L ≠ [] ∧
      ((buildArrangement lines circles vertices eps).edges.getD (L.getLastD 0)
          default).dst =
        ((buildArrangement lines circles vertices eps).edges.getD (L.headD 0)
          default).src := by
  intro L hL
  have H := traceFacesAux_closed _ (buildArrangement_inv lines circles vertices eps)
    (List.range (buildArrangement lines circles vertices eps).edges.length)
    (fun _ => false) [] (by simp) L (by rwa [traceFaces] at hL)
  exact ⟨H.1, H.2.2.symm⟩

/-- C10: in every loop returned by `traceFaces` on a built arrangement,
consecutive half-edges chain through shared vertices: the origin of the
half-edge at position `k + 1` is the terminal vertex of the one at `k`. -/
theorem traceFaces_loops_chain (lines : List LineIn) (circles : List CircleIn)
    (vertices : List Pt) (eps : ℝ) :
    ∀ L ∈ traceFaces (buildArrangement lines circles vertices eps),
      ∀ k, k + 1 < L.length →
        ((buildArrangement lines circles vertices eps).edges.getD (L.getD (k + 1) 0)
            default).src =
          ((buildArrangement lines circles vertices eps).edges.getD (L.getD k 0)
            default).dst := by
  intro L hL k hk
  have H := traceFacesAux_closed _ (buildArrangement_inv lines circles vertices eps)
    (List.range (buildArrangement lines circles vertices eps).edges.length)
    (fun _ => false) [] (by simp) L (by rwa [traceFaces] at hL)
  have hch := H.2.1
  rw [List.chain'_iff_get] at hch
  have hk1 : k < L.length := by omega
  have hk2 : k + 1 < L.length := hk
  have := hch k (by omega)
  rw [nextRel] at this
  rw [List.getD_eq_getElem _ _ hk2, List.getD_eq_getElem _ _ hk1]
  simpa [List.get_eq_getElem] using this

/-! ## Claim C8: boundary-inclusive point containment -/

theorem abs_le_hypot_left (x y : ℝ) : |x| ≤ hypot x y := by
  rw [hypot, ← Real.sqrt_sq_eq_abs]
  apply Real.sqrt_le_sqrt
  nlinarith [sq_nonneg y]

theorem abs_le_hypot_right (x y : ℝ) : |y| ≤ hypot x y := by
  rw [hypot, ← Real.sqrt_sq_eq_abs]
  apply Real.sqrt_le_sqrt
  nlinarith [sq_nonneg x]

/-- The clamped projection minimizes the squared distance to the segment. -/
theorem clampT_sq_min (vx vy wx wy s : ℝ) (h0 : 0 ≤ s) (h1 : s ≤ 1) :
    (wx - clampT vx vy wx wy * vx) ^ 2 + (wy - clampT vx vy wx wy * vy) ^ 2 ≤
      (wx - s * vx) ^ 2 + (wy - s * vy) ^ 2 := by
  by_cases hz : vx * vx + vy * vy = 0
  · have hvx : vx = 0 := by nlinarith [sq_nonneg vx, sq_nonneg vy]
    have hvy : vy = 0 := by nlinarith [sq_nonneg vx, sq_nonneg vy]
    rw [hvx, hvy]
    simp only [mul_zero, sub_zero]
    exact le_rfl
  · have hL : 0 < vx * vx + vy * vy :=
      lt_of_le_of_ne (by nlinarith [sq_nonneg vx, sq_nonneg vy]) (Ne.symm hz)
    have hclamp : clampT vx vy wx wy =
        max 0 (min 1 ((wx * vx + wy * vy) / (vx * vx + vy * vy))) := by
      rw [clampT, if_neg hz]
    set L := vx * vx + vy * vy with hLdef
    set K := wx * vx + wy * vy with hKdef
    set u := K / L with hu
    have hKL : K = u * L := by
      rw [hu]
      field_simp
    have key : ∀ s' : ℝ, (wx - s' * vx) ^ 2 + (wy - s' * vy) ^ 2 =
        (wx ^ 2 + wy ^ 2) - 2 * s' * K + s' ^ 2 * L := by
      intro s'
      rw [hKdef, hLdef]
      ring
    rw [hclamp]
    rcases le_or_lt u 0 with hu0 | hu0
    · have ht : max 0 (min 1 u) = 0 :=
        max_eq_left (le_trans (min_le_right 1 u) hu0)
      rw [ht, key 0, key s, hKL]
      nlinarith [mul_nonneg (mul_nonneg h0 (by linarith : (0 : ℝ) ≤ s - 2 * u)) hL.le]
    · rcases le_or_lt 1 u with hu1 | hu1
      · have ht : max 0 (min 1 u) = 1 := by
          rw [min_eq_left hu1]
          exact max_eq_right zero_le_one
        rw [ht, key 1, key s, hKL]
        nlinarith [mul_nonneg (mul_nonneg (sub_nonneg.mpr h1)
          (by linarith : (0 : ℝ) ≤ 2 * u - s - 1)) hL.le]
      · have ht : max 0 (min 1 u) = u := by
          rw [min_eq_right hu1.le]
          exact max_eq_right hu0.le
        rw [ht, key u, key s, hKL]
        nlinarith [mul_nonneg (sq_nonneg (s - u)) hL.le]

/-- Characterization: `pointNearSegment` holds exactly when some point of the
segment is within `eps` of `p`. -/
theorem pointNearSegment_iff (p a b : Pt) (eps : ℝ) :
    pointNearSegment p a b eps = true ↔
      ∃ t : ℝ, 0 ≤ t ∧ t ≤ 1 ∧
        hypot (p.x - (a.x + t * (b.x - a.x))) (p.y - (a.y + t * (b.y - a.y))) ≤ eps := by
  rw [pointNearSegment]
  simp only [decide_eq_true_eq]
  constructor
  · intro h
    refine ⟨clampT (b.x - a.x) (b.y - a.y) (p.x - a.x) (p.y - a.y),
      le_max_left 0 _, max_le zero_le_one (min_le_left 1 _), h⟩
  · rintro ⟨t, ht0, ht1, hd⟩
    set tc := clampT (b.x - a.x) (b.y - a.y) (p.x - a.x) (p.y - a.y)
    have hmin := clampT_sq_min (b.x - a.x) (b.y - a.y) (p.x - a.x) (p.y - a.y) t ht0 ht1
    have hrw : ∀ s : ℝ,
        (p.x - (a.x + s * (b.x - a.x))) * (p.x - (a.x + s * (b.x - a.x))) +
          (p.y - (a.y + s * (b.y - a.y))) * (p.y - (a.y + s * (b.y - a.y))) =
        (p.x - a.x - s * (b.x - a.x)) ^ 2 + (p.y - a.y - s * (b.y - a.y)) ^ 2 := by
      intro s
      ring
    have : hypot (p.x - (a.x + tc * (b.x - a.x))) (p.y - (a.y + tc * (b.y - a.y))) ≤
        hypot (p.x - (a.x + t * (b.x - a.x))) (p.y - (a.y + t * (b.y - a.y))) := by
      rw [hypot, hypot]
      apply Real.sqrt_le_sqrt
      rw [hrw tc, hrw t]
      exact hmin
    exact le_trans this hd

/-- C8: `pointInPolyline` is boundary-inclusive — if some ring edge passes
within tolerance `1e-6` of the query point (in particular if the point lies
exactly on an edge or vertex) the result is `true`; for a point farther than
the tolerance from every ring edge the result is the ray-casting parity. -/
theorem pointInPolyline_spec (pt : Pt) (poly : List Pt) :
    ((∃ pr ∈ ringPairs poly, ∃ t : ℝ, 0 ≤ t ∧ t ≤ 1 ∧
        hypot (pt.x - (pr.1.x + t * (pr.2.x - pr.1.x)))
          (pt.y - (pr.1.y + t * (pr.2.y - pr.1.y))) ≤ 1e-6) →
      pointInPolyline pt poly = true) ∧
    ((∀ pr ∈ ringPairs poly, ∀ t : ℝ, 0 ≤ t → t ≤ 1 →
        1e-6 < hypot (pt.x - (pr.1.x + t * (pr.2.x - pr.1.x)))
          (pt.y - (pr.1.y + t * (pr.2.y - pr.1.y)))) →
      pointInPolyline pt poly = rayParity pt poly) := by
  constructor
  · rintro ⟨pr, hpr, t, ht0, ht1, hd⟩
    rw [pointInPolyline, if_pos]
    rw [List.any_eq_true]
    exact ⟨pr, hpr, (pointNearSegment_iff pt pr.1 pr.2 1e-6).mpr ⟨t, ht0, ht1, hd⟩⟩
  · intro hfar
    rw [pointInPolyline, if_neg]
    intro hany
    rw [List.any_eq_true] at hany
    obtain ⟨pr, hpr, hnear⟩ := hany
    obtain ⟨t, ht0, ht1, hd⟩ := (pointNearSegment_iff pt pr.1 pr.2 1e-6).mp hnear
    exact absurd hd (not_le.mpr (hfar pr hpr t ht0 ht1))

theorem sqRing_pairs : ringPairs sqRing =
    [(⟨0, 1⟩, ⟨0, 0⟩), (⟨0, 0⟩, ⟨1, 0⟩), (⟨1, 0⟩, ⟨1, 1⟩), (⟨1, 1⟩, ⟨0, 1⟩)] := rfl

/-- Witness for C8: the corner `(0,0)` of the unit square (distance `0` from
the ring edge from `(0,1)` to `(0,0)` at `t = 1`) reports inside, and the far
point `(5,5)` reduces to its ray-casting parity. -/
theorem pointInPolyline_spec_witness :
    pointInPolyline ⟨0, 0⟩ sqRing = true ∧
    pointInPolyline ⟨5, 5⟩ sqRing = rayParity ⟨5, 5⟩ sqRing := by
  constructor
  · apply (pointInPolyline_spec ⟨0, 0⟩ sqRing).1
    refine ⟨(⟨0, 1⟩, ⟨0, 0⟩), by rw [sqRing_pairs]; exact List.mem_cons_self _ _,
      1, zero_le_one, le_rfl, ?_⟩
    have hx : (0 : ℝ) - (0 + 1 * (0 - 0)) = 0 := by norm_num
    have hy : (0 : ℝ) - (1 + 1 * (0 - 1)) = 0 := by norm_num
    simp only
    rw [hx, hy, hypot]
    norm_num
  · apply (pointInPolyline_spec ⟨5, 5⟩ sqRing).2
    intro pr hpr t ht0 ht1
    rw [sqRing_pairs] at hpr
    have habs : ∀ z w : ℝ, (4 : ℝ) ≤ z → 1e-6 < hypot z w := by
      intro z w hz
      have := abs_le_hypot_left z w
      have : (4 : ℝ) ≤ hypot z w := le_trans (le_trans hz (le_abs_self z)) this
      linarith
    have habsY : ∀ z w : ℝ, (4 : ℝ) ≤ w → 1e-6 < hypot z w := by
      intro z w hw
      have := abs_le_hypot_right z w
      have : (4 : ℝ) ≤ hypot z w := le_trans (le_trans hw (le_abs_self w)) this
      linarith
    fin_cases hpr
    · apply habs
      simp only
      norm_num
    · apply habsY
      simp only
      norm_num
    · apply habs
      simp only
      norm_num
    · apply habsY
      simp only
      norm_num

theorem arcSamples_length (cursor : Pt) (c : Pt) (r : ℝ) (sweep : Bool) (toPt : Pt)
    (maxAngleStep : ℝ) :
    (arcSamples cursor c r sweep toPt maxAngleStep).length =
      arcSteps cursor c toPt sweep maxAngleStep := by
  rw [arcSamples, List.length_map, List.length_range]

theorem countStep_foldl_add (maxAngleStep : ℝ) :
    ∀ (segs : List PathSeg) (v : Pt) (m n : ℕ),
      (segs.foldl (countStep maxAngleStep) (v, m + n)).2 =
        m + (segs.foldl (countStep maxAngleStep) (v, n)).2 := by
  intro segs
  induction segs with
  | nil => intro v m n; simp [List.foldl]
  | cons s rest ih =>
    intro v m n
    rw [List.foldl_cons, List.foldl_cons]
    show (rest.foldl (countStep maxAngleStep)
        (s.endPt, m + n + segSampleCount v s maxAngleStep)).2 = _
    rw [Nat.add_assoc, ih s.endPt m (n + segSampleCount v s maxAngleStep)]
    rfl

theorem polyStep_foldl_length (maxAngleStep : ℝ) :
    ∀ (segs : List PathSeg) (cursor : Pt) (acc : List Pt) (n : ℕ),
      ((segs.foldl (polyStep maxAngleStep) (cursor, acc)).2).length + n =
        acc.length + (segs.foldl (countStep maxAngleStep) (cursor, n)).2 := by
  intro segs
  induction segs with
  | nil => intro cursor acc n; simp [List.foldl]
  | cons s rest ih =>
    intro cursor acc n
    rw [List.foldl_cons, List.foldl_cons]
    cases s with
    | L toPt =>
      show ((rest.foldl (polyStep maxAngleStep) (toPt, acc ++ [toPt])).2).length + n =
        acc.length + (rest.foldl (countStep maxAngleStep)
          (toPt, n + segSampleCount cursor (.L toPt) maxAngleStep)).2
      rw [ih toPt (acc ++ [toPt]) n]
      rw [show n + segSampleCount cursor (.L toPt) maxAngleStep =
        segSampleCount cursor (.L toPt) maxAngleStep + n from Nat.add_comm _ _]
      rw [countStep_foldl_add]
      simp [segSampleCount]
      omega
    | A toPt r largeArc sweep c =>
      show ((rest.foldl (polyStep maxAngleStep)
          (toPt, acc ++ arcSamples cursor c r sweep toPt maxAngleStep)).2).length + n =
        acc.length + (rest.foldl (countStep maxAngleStep)
          (toPt, n + segSampleCount cursor (.A toPt r largeArc sweep c) maxAngleStep)).2
      rw [ih toPt (acc ++ arcSamples cursor c r sweep toPt maxAngleStep) n]
      rw [show n + segSampleCount cursor (.A toPt r largeArc sweep c) maxAngleStep =
        segSampleCount cursor (.A toPt r largeArc sweep c) maxAngleStep + n from
          Nat.add_comm _ _]
      rw [countStep_foldl_add]
      rw [List.length_append, arcSamples_length]
      simp [segSampleCount]
      omega

theorem pathToPolylineOpen_length (path : RegionPath) (maxAngleStep : ℝ) :
    (pathToPolylineOpen path maxAngleStep).length = pathSampleCount path maxAngleStep := by
  rw [pathToPolylineOpen, pathSampleCount]
  have h := polyStep_foldl_length maxAngleStep path.segs path.start [path.start] 0
  rw [Nat.add_zero] at h
  rw [h]
  rw [show (1 : ℕ) = 1 + 0 from rfl, countStep_foldl_add]
  simp

/-- C7 (amended: the per-arc sample count uses the span clamped to `0` when
it falls below `1e-9`, so such arcs always contribute exactly two samples):
the polyline length is the start point plus `max(2, ceil(clampedSpan/step))`
samples per arc and one per line segment, plus one closing point exactly when
the final sample differs from the first point by more than `1e-9` in `x` or
`y`. -/
theorem pathToPolyline_length (path : RegionPath) (maxAngleStep : ℝ)
    (h : 0 < maxAngleStep) :
    (pathToPolyline path maxAngleStep).length =
      pathSampleCount path maxAngleStep +
        (if pathCloses path maxAngleStep then 1 else 0) := by
  rw [pathToPolyline]
  by_cases hc : pathCloses path maxAngleStep
  · rw [if_pos hc, if_pos hc, List.length_append, pathToPolylineOpen_length]
    rfl
  · rw [if_neg hc, if_neg hc, pathToPolylineOpen_length]
    omega

/-- Witness for C7's amended count theorem: a single line-to from `(0,0)` to
`(1,0)` with step `1` yields `1 + 1` samples plus a closing point, three
points in total. -/
theorem pathToPolyline_length_witness :
    (0 : ℝ) < 1 ∧
    (pathToPolyline ⟨⟨0, 0⟩, [.L ⟨1, 0⟩]⟩ 1).length =
      pathSampleCount ⟨⟨0, 0⟩, [.L ⟨1, 0⟩]⟩ 1 +
        (if pathCloses ⟨⟨0, 0⟩, [.L ⟨1, 0⟩]⟩ 1 then 1 else 0) :=
  ⟨one_pos, pathToPolyline_length ⟨⟨0, 0⟩, [.L ⟨1, 0⟩]⟩ 1 one_pos⟩

theorem jsMod_tau_eq_self {a : ℝ} (h0 : 0 ≤ a) (h1 : a < TAU) : jsMod a TAU = a := by
  have hτ := two_pi_pos
  have hdiv0 : 0 ≤ a / TAU := div_nonneg h0 (le_of_lt hτ)
  have hdiv1 : a / TAU < 1 := (div_lt_one hτ).mpr h1
  have hfl : ⌊a / TAU⌋ = 0 := by
    rw [Int.floor_eq_zero_iff]
    constructor <;> simp_all
  rw [jsMod, jsTrunc_eq_floor hdiv0, hfl]
  push_cast
  ring

/-- Raw CCW span of the arc from `(1,0)` to `(cos θ, sin θ)` about the origin,
swept CCW: exactly `θ` for `θ ∈ [0, π]`. -/
theorem arcSpanRaw_unit {θ : ℝ} (h0 : 0 ≤ θ) (h1 : θ ≤ Real.pi) :
    arcSpanRaw ⟨1, 0⟩ ⟨0, 0⟩ ⟨Real.cos θ, Real.sin θ⟩ true = θ := by
  have hpi := Real.pi_pos
  simp only [arcSpanRaw]
  norm_num
  rw [atan2_zero_one, atan2_sin_cos (by linarith) h1]
  rw [sub_zero, jsMod_tau_eq_self h0 (by rw [TAU]; linarith)]
  rw [if_neg (not_lt.mpr h0)]

theorem cex_span_raw :
    arcSpanRaw ⟨1, 0⟩ ⟨0, 0⟩ ⟨Real.cos 5e-10, Real.sin 5e-10⟩ true = 5e-10 :=
  arcSpanRaw_unit (by norm_num) (by linarith [Real.pi_gt_3141592])

theorem cex_span_clamped :
    arcSpanClamped ⟨1, 0⟩ ⟨0, 0⟩ ⟨Real.cos 5e-10, Real.sin 5e-10⟩ true = 0 := by
  rw [arcSpanClamped, cex_span_raw]
  rw [if_pos (by norm_num)]

theorem cex_arcSteps :
    arcSteps ⟨1, 0⟩ ⟨0, 0⟩ ⟨Real.cos 5e-10, Real.sin 5e-10⟩ true 1e-10 = 2 := by
  rw [arcSteps, cex_span_clamped]
  norm_num

theorem cex_specArcSteps :
    specArcSteps ⟨1, 0⟩ ⟨0, 0⟩ ⟨Real.cos 5e-10, Real.sin 5e-10⟩ true 1e-10 = 5 := by
  rw [specArcSteps, cex_span_raw]
  have hq : (5e-10 : ℝ) / 1e-10 = 5 := by norm_num
  rw [hq, show ((5 : ℝ)) = ((5 : ℕ) : ℝ) by norm_num, Int.ceil_natCast]
  rfl

theorem cex_a0 :
    atan2 ((⟨1, 0⟩ : Pt).y - (⟨0, 0⟩ : Pt).y) ((⟨1, 0⟩ : Pt).x - (⟨0, 0⟩ : Pt).x) = 0 := by
  norm_num
  exact atan2_zero_one

theorem cex_samples :
    arcSamples ⟨1, 0⟩ ⟨0, 0⟩ 1 true ⟨Real.cos 5e-10, Real.sin 5e-10⟩ 1e-10 =
      [⟨1, 0⟩, ⟨1, 0⟩] := by
  rw [arcSamples, cex_arcSteps, cex_span_clamped, cex_a0]
  rw [show List.range 2 = [0, 1] from rfl]
  simp only [List.map_cons, List.map_nil]
  norm_num [arcSamplePoint]

theorem cex_open :
    pathToPolylineOpen cexPath 1e-10 = [⟨1, 0⟩, ⟨1, 0⟩, ⟨1, 0⟩] := by
  rw [pathToPolylineOpen, cexPath]
  simp only [List.foldl_cons, List.foldl_nil, polyStep]
  rw [cex_samples]
  rfl

theorem cex_not_closes : ¬ pathCloses cexPath 1e-10 := by
  rw [pathCloses, cex_open]
  simp only [List.headD_cons]
  norm_num [List.getLastD, approxEq]

theorem cex_spec_open :
    specPathToPolylineOpen cexPath 1e-10 =
      ⟨1, 0⟩ :: (List.range 5).map
        (arcSamplePoint 0 5e-10 true ⟨0, 0⟩ 1 5) := by
  rw [specPathToPolylineOpen, cexPath]
  simp only [List.foldl_cons, List.foldl_nil, specPolyStep]
  rw [specArcSamples, cex_specArcSteps, cex_span_raw, cex_a0]
  rfl

theorem cex_spec_last :
    arcSamplePoint 0 5e-10 true ⟨0, 0⟩ 1 5 4 =
      (⟨Real.cos 5e-10, Real.sin 5e-10⟩ : Pt) := by
  rw [arcSamplePoint]
  have ht : ((4 : ℕ) : ℝ) + 1 = 5 := by norm_num
  simp only [ht]
  have : (5e-10 : ℝ) * (5 / (5 : ℕ)) = 5e-10 := by norm_num
  norm_num

/-- C7 counterexample: for the tiny arc `cexPath` (raw span `5e-10`) and
`maxAngleStep = 1e-10`, the claim's count `max(2, ceil(span/step)) = 5` with
no closing point predicts a 6-point polyline (the claim-side
`specPathToPolyline`), but `pathToPolyline` clamps spans below `1e-9` to `0`
and yields only 3 points. -/
theorem pathToPolyline_claim_cex :
    (specPathToPolyline cexPath 1e-10).length = 6 ∧
    (pathToPolyline cexPath 1e-10).length = 3 := by
  constructor
  · rw [specPathToPolyline]
    have hδ := Real.pi_gt_3141592
    have hsin0 : (0 : ℝ) ≤ Real.sin 5e-10 :=
      Real.sin_nonneg_of_nonneg_of_le_pi (by norm_num) (by linarith)
    have hsinlt : Real.sin 5e-10 < 5e-10 := Real.sin_lt (by norm_num)
    have hcos1 : Real.cos 5e-10 ≤ 1 := Real.cos_le_one _
    have hcosge : 1 - (5e-10 : ℝ) ^ 2 / 2 ≤ Real.cos 5e-10 :=
      Real.one_sub_sq_div_two_le_cos
    have hlast : (specPathToPolylineOpen cexPath 1e-10).getLastD default =
        (⟨Real.cos 5e-10, Real.sin 5e-10⟩ : Pt) := by
      rw [cex_spec_open, show List.range 5 = [0, 1, 2, 3, 4] from rfl]
      simp only [List.map_cons, List.map_nil]
      rw [show ((⟨1,0⟩ : Pt) :: [arcSamplePoint 0 5e-10 true ⟨0,0⟩ 1 5 0,
        arcSamplePoint 0 5e-10 true ⟨0,0⟩ 1 5 1, arcSamplePoint 0 5e-10 true ⟨0,0⟩ 1 5 2,
        arcSamplePoint 0 5e-10 true ⟨0,0⟩ 1 5 3,
        arcSamplePoint 0 5e-10 true ⟨0,0⟩ 1 5 4]).getLastD default =
          arcSamplePoint 0 5e-10 true ⟨0,0⟩ 1 5 4 from rfl]
      exact cex_spec_last
    have hhead : (specPathToPolylineOpen cexPath 1e-10).headD default =
        (⟨1, 0⟩ : Pt) := by
      rw [cex_spec_open]
      rfl
    rw [if_neg]
    · rw [cex_spec_open]
      simp
    · rw [hhead, hlast]
      simp only [approxEq, not_or, not_not]
      constructor
      · show |(1 : ℝ) - Real.cos 5e-10| ≤ 1e-9
        rw [abs_of_nonneg (by linarith)]
        nlinarith
      · show |(0 : ℝ) - Real.sin 5e-10| ≤ 1e-9
        rw [abs_of_nonpos (by linarith)]
        linarith
  · rw [pathToPolyline, if_neg cex_not_closes, cex_open]
    rfl

/-! ## Claim C1: the fill operation selects a minimal-area candidate -/

theorem insertionSort_head_min {α : Type} (f : α → ℝ) (l : List α) (h : l ≠ []) :
    ∃ c, (List.insertionSort (keyLE f) l).head? = some c ∧ c ∈ l ∧
      ∀ c' ∈ l, f c ≤ f c' := by
  have hperm := List.perm_insertionSort (keyLE f) l
  have hsorted := List.sorted_insertionSort (keyLE f) l
  cases hs : List.insertionSort (keyLE f) l with
  | nil =>
    rw [hs] at hperm
    exact absurd hperm.symm.eq_nil h
  | cons c rest =>
    rw [hs] at hperm hsorted
    refine ⟨c, rfl, hperm.mem_iff.mp (List.mem_cons_self c rest), fun c' hc' => ?_⟩
    have hc'' : c' ∈ c :: rest := hperm.mem_iff.mpr hc'
    rcases List.mem_cons.mp hc'' with rfl | hmem
    · exact le_rfl
    · exact List.rel_of_sorted_cons hsorted c' hmem

/-- C1: whenever the fill candidate set (loops whose materialized polyline
contains the click point with unsigned area above `1e-10`) is non-empty, the
fill operation selects a member of it of minimal unsigned area: no other
candidate has a strictly smaller area. -/
theorem fillRegion_min (A : Arrangement) (q : Pt) (h : fillCandidates A q ≠ []) :
    ∃ c, fillRegion A q = some c ∧ c ∈ fillCandidates A q ∧
      ∀ c' ∈ fillCandidates A q, c.area ≤ c'.area := by
  obtain ⟨c, hh, hm, hmin⟩ := insertionSort_head_min Candidate.area (fillCandidates A q) h
  exact ⟨c, by rw [fillRegion]; exact hh, hm, hmin⟩

theorem hypot_eval {a b c : ℝ} (h : a * a + b * b = c * c) (hc : 0 ≤ c) :
    hypot a b = c := by
  rw [hypot, h, Real.sqrt_mul_self hc]

theorem hypot10 : hypot 1 0 = 1 := hypot_eval (by norm_num) (by norm_num)

theorem hypot01 : hypot 0 1 = 1 := hypot_eval (by norm_num) (by norm_num)

theorem hypotm10 : hypot (-1) 0 = 1 := hypot_eval (by norm_num) (by norm_num)

theorem hypot0m1 : hypot 0 (-1) = 1 := hypot_eval (by norm_num) (by norm_num)

theorem sq_line0_idxs :
    lineVertexIdxs sqVerts 1e-6 ⟨⟨0, 0⟩, ⟨1, 0⟩⟩ = [(0, 0), (1, 1)] := by
  have on0 : onLine (⟨0, 0⟩ : Pt) ⟨⟨0, 0⟩, ⟨1, 0⟩⟩ 1e-6 := by
    norm_num [onLine, hypot10]
  have on1 : onLine (⟨1, 0⟩ : Pt) ⟨⟨0, 0⟩, ⟨1, 0⟩⟩ 1e-6 := by
    norm_num [onLine, hypot10]
  have off2 : ¬ onLine (⟨1, 1⟩ : Pt) ⟨⟨0, 0⟩, ⟨1, 0⟩⟩ 1e-6 := by
    norm_num [onLine, hypot10]
  have off3 : ¬ onLine (⟨0, 1⟩ : Pt) ⟨⟨0, 0⟩, ⟨1, 0⟩⟩ 1e-6 := by
    norm_num [onLine, hypot10]
  have t0 : lineParamT (⟨0, 0⟩ : Pt) ⟨⟨0, 0⟩, ⟨1, 0⟩⟩ = 0 := by
    norm_num [lineParamT, hypot10]
  have t1 : lineParamT (⟨1, 0⟩ : Pt) ⟨⟨0, 0⟩, ⟨1, 0⟩⟩ = 1 := by
    norm_num [lineParamT, hypot10]
  rw [lineVertexIdxs, show List.range sqVerts.length = [0, 1, 2, 3] from rfl]
  simp only [List.filterMap_cons, List.filterMap_nil,
    show sqVerts.getD 0 default = (⟨0, 0⟩ : Pt) from rfl,
    show sqVerts.getD 1 default = (⟨1, 0⟩ : Pt) from rfl,
    show sqVerts.getD 2 default = (⟨1, 1⟩ : Pt) from rfl,
    show sqVerts.getD 3 default = (⟨0, 1⟩ : Pt) from rfl,
    on0, on1, off2, off3, t0, t1, if_true, if_false]

theorem sq_line0 :
    lineEdges sqVerts 1e-6 ⟨⟨0, 0⟩, ⟨1, 0⟩⟩ =
      [{ kind := .segment, src := 0, dst := 1, tangentAngleAtFrom := 0 },
       { kind := .segment, src := 1, dst := 0, tangentAngleAtFrom := Real.pi }] := by
  rw [lineEdges, sq_line0_idxs]
  have hsort : List.insertionSort (keyLE Prod.snd) [((0 : ℕ), (0 : ℝ)), (1, 1)] =
      [(0, 0), (1, 1)] := by
    simp only [List.insertionSort, List.orderedInsert]
    rw [if_pos (by norm_num [keyLE])]
  rw [hsort]
  rw [if_neg (by norm_num)]
  simp only [show ([((0 : ℕ), (0 : ℝ)), (1, 1)].zip [((0 : ℕ), (0 : ℝ)), (1, 1)].tail) =
    [(((0 : ℕ), (0 : ℝ)), ((1 : ℕ), (1 : ℝ)))] from rfl]
  simp only [List.flatMap_cons, List.flatMap_nil]
  rw [if_neg (by norm_num : ¬ (0 : ℕ) = 1)]
  simp only [show sqVerts.getD 0 default = (⟨0, 0⟩ : Pt) from rfl,
    show sqVerts.getD 1 default = (⟨1, 0⟩ : Pt) from rfl]
  norm_num [atan2_zero_one, normAngle_zero, normAngle_pi]

theorem sq_line1_idxs :
    lineVertexIdxs sqVerts 1e-6 ⟨⟨1, 0⟩, ⟨1, 1⟩⟩ = [(1, 0), (2, 1)] := by
  have off0 : ¬ onLine (⟨0, 0⟩ : Pt) ⟨⟨1, 0⟩, ⟨1, 1⟩⟩ 1e-6 := by
    norm_num [onLine, hypot01]
  have on1 : onLine (⟨1, 0⟩ : Pt) ⟨⟨1, 0⟩, ⟨1, 1⟩⟩ 1e-6 := by
    norm_num [onLine, hypot01]
  have on2 : onLine (⟨1, 1⟩ : Pt) ⟨⟨1, 0⟩, ⟨1, 1⟩⟩ 1e-6 := by
    norm_num [onLine, hypot01]
  have off3 : ¬ onLine (⟨0, 1⟩ : Pt) ⟨⟨1, 0⟩, ⟨1, 1⟩⟩ 1e-6 := by
    norm_num [onLine, hypot01]
  have t1 : lineParamT (⟨1, 0⟩ : Pt) ⟨⟨1, 0⟩, ⟨1, 1⟩⟩ = 0 := by
    norm_num [lineParamT, hypot01]
  have t2 : lineParamT (⟨1, 1⟩ : Pt) ⟨⟨1, 0⟩, ⟨1, 1⟩⟩ = 1 := by
    norm_num [lineParamT, hypot01]
  rw [lineVertexIdxs, show List.range sqVerts.length = [0, 1, 2, 3] from rfl]
  simp only [List.filterMap_cons, List.filterMap_nil,
    show sqVerts.getD 0 default = (⟨0, 0⟩ : Pt) from rfl,
    show sqVerts.getD 1 default = (⟨1, 0⟩ : Pt) from rfl,
    show sqVerts.getD 2 default = (⟨1, 1⟩ : Pt) from rfl,
    show sqVerts.getD 3 default = (⟨0, 1⟩ : Pt) from rfl,
    off0, on1, on2, off3, t1, t2, if_true, if_false]

theorem sq_line1 :
    lineEdges sqVerts 1e-6 ⟨⟨1, 0⟩, ⟨1, 1⟩⟩ =
      [{ kind := .segment, src := 1, dst := 2, tangentAngleAtFrom := Real.pi / 2 },
       { kind := .segment, src := 2, dst := 1,
         tangentAngleAtFrom := Real.pi / 2 + Real.pi }] := by
  rw [lineEdges, sq_line1_idxs]
  have hsort : List.insertionSort (keyLE Prod.snd) [((1 : ℕ), (0 : ℝ)), (2, 1)] =
      [(1, 0), (2, 1)] := by
    simp only [List.insertionSort, List.orderedInsert]
    rw [if_pos (by norm_num [keyLE])]
  rw [hsort]
  rw [if_neg (by norm_num)]
  simp only [show ([((1 : ℕ), (0 : ℝ)), (2, 1)].zip [((1 : ℕ), (0 : ℝ)), (2, 1)].tail) =
    [(((1 : ℕ), (0 : ℝ)), ((2 : ℕ), (1 : ℝ)))] from rfl]
  simp only [List.flatMap_cons, List.flatMap_nil]
  rw [if_neg (by norm_num : ¬ (1 : ℕ) = 2)]
  simp only [show sqVerts.getD 1 default = (⟨1, 0⟩ : Pt) from rfl,
    show sqVerts.getD 2 default = (⟨1, 1⟩ : Pt) from rfl]
  norm_num [atan2_one_zero, normAngle_pi_div_two, normAngle_three_pi_div_two]

theorem sq_line2_idxs :
    lineVertexIdxs sqVerts 1e-6 ⟨⟨1, 1⟩, ⟨0, 1⟩⟩ = [(2, 0), (3, 1)] := by
  have off0 : ¬ onLine (⟨0, 0⟩ : Pt) ⟨⟨1, 1⟩, ⟨0, 1⟩⟩ 1e-6 := by
    norm_num [onLine, hypotm10]
  have off1 : ¬ onLine (⟨1, 0⟩ : Pt) ⟨⟨1, 1⟩, ⟨0, 1⟩⟩ 1e-6 := by
    norm_num [onLine, hypotm10]
  have on2 : onLine (⟨1, 1⟩ : Pt) ⟨⟨1, 1⟩, ⟨0, 1⟩⟩ 1e-6 := by
    norm_num [onLine, hypotm10]
  have on3 : onLine (⟨0, 1⟩ : Pt) ⟨⟨1, 1⟩, ⟨0, 1⟩⟩ 1e-6 := by
    norm_num [onLine, hypotm10]
  have t2 : lineParamT (⟨1, 1⟩ : Pt) ⟨⟨1, 1⟩, ⟨0, 1⟩⟩ = 0 := by
    norm_num [lineParamT, hypotm10]
  have t3 : lineParamT (⟨0, 1⟩ : Pt) ⟨⟨1, 1⟩, ⟨0, 1⟩⟩ = 1 := by
    norm_num [lineParamT, hypotm10]
  rw [lineVertexIdxs, show List.range sqVerts.length = [0, 1, 2, 3] from rfl]
  simp only [List.filterMap_cons, List.filterMap_nil,
    show sqVerts.getD 0 default = (⟨0, 0⟩ : Pt) from rfl,
    show sqVerts.getD 1 default = (⟨1, 0⟩ : Pt) from rfl,
    show sqVerts.getD 2 default = (⟨1, 1⟩ : Pt) from rfl,
    show sqVerts.getD 3 default = (⟨0, 1⟩ : Pt) from rfl,
    off0, off1, on2, on3, t2, t3, if_true, if_false]

theorem sq_line2 :
    lineEdges sqVerts 1e-6 ⟨⟨1, 1⟩, ⟨0, 1⟩⟩ =
      [{ kind := .segment, src := 2, dst := 3, tangentAngleAtFrom := Real.pi },
       { kind := .segment, src := 3, dst := 2, tangentAngleAtFrom := 0 }] := by
  rw [lineEdges, sq_line2_idxs]
  have hsort : List.insertionSort (keyLE Prod.snd) [((2 : ℕ), (0 : ℝ)), (3, 1)] =
      [(2, 0), (3, 1)] := by
    simp only [List.insertionSort, List.orderedInsert]
    rw [if_pos (by norm_num [keyLE])]
  rw [hsort]
  rw [if_neg (by norm_num)]
  simp only [show ([((2 : ℕ), (0 : ℝ)), (3, 1)].zip [((2 : ℕ), (0 : ℝ)), (3, 1)].tail) =
    [(((2 : ℕ), (0 : ℝ)), ((3 : ℕ), (1 : ℝ)))] from rfl]
  simp only [List.flatMap_cons, List.flatMap_nil]
  rw [if_neg (by norm_num : ¬ (2 : ℕ) = 3)]
  simp only [show sqVerts.getD 2 default = (⟨1, 1⟩ : Pt) from rfl,
    show sqVerts.getD 3 default = (⟨0, 1⟩ : Pt) from rfl]
  norm_num [atan2_zero_neg_one, normAngle_pi, normAngle_two_pi]

theorem sq_line3_idxs :
    lineVertexIdxs sqVerts 1e-6 ⟨⟨0, 1⟩, ⟨0, 0⟩⟩ = [(0, 1), (3, 0)] := by
  have on0 : onLine (⟨0, 0⟩ : Pt) ⟨⟨0, 1⟩, ⟨0, 0⟩⟩ 1e-6 := by
    norm_num [onLine, hypot0m1]
  have off1 : ¬ onLine (⟨1, 0⟩ : Pt) ⟨⟨0, 1⟩, ⟨0, 0⟩⟩ 1e-6 := by
    norm_num [onLine, hypot0m1]
  have off2 : ¬ onLine (⟨1, 1⟩ : Pt) ⟨⟨0, 1⟩, ⟨0, 0⟩⟩ 1e-6 := by
    norm_num [onLine, hypot0m1]
  have on3 : onLine (⟨0, 1⟩ : Pt) ⟨⟨0, 1⟩, ⟨0, 0⟩⟩ 1e-6 := by
    norm_num [onLine, hypot0m1]
  have t0 : lineParamT (⟨0, 0⟩ : Pt) ⟨⟨0, 1⟩, ⟨0, 0⟩⟩ = 1 := by
    norm_num [lineParamT, hypot0m1]
  have t3 : lineParamT (⟨0, 1⟩ : Pt) ⟨⟨0, 1⟩, ⟨0, 0⟩⟩ = 0 := by
    norm_num [lineParamT, hypot0m1]
  rw [lineVertexIdxs, show List.range sqVerts.length = [0, 1, 2, 3] from rfl]
  simp only [List.filterMap_cons, List.filterMap_nil,
    show sqVerts.getD 0 default = (⟨0, 0⟩ : Pt) from rfl,
    show sqVerts.getD 1 default = (⟨1, 0⟩ : Pt) from rfl,
    show sqVerts.getD 2 default = (⟨1, 1⟩ : Pt) from rfl,
    show sqVerts.getD 3 default = (⟨0, 1⟩ : Pt) from rfl,
    on0, off1, off2, on3, t0, t3, if_true, if_false]

theorem sq_line3 :
    lineEdges sqVerts 1e-6 ⟨⟨0, 1⟩, ⟨0, 0⟩⟩ =
      [{ kind := .segment, src := 3, dst := 0,
         tangentAngleAtFrom := Real.pi / 2 + Real.pi },
       { kind := .segment, src := 0, dst := 3, tangentAngleAtFrom := Real.pi / 2 }] := by
  rw [lineEdges, sq_line3_idxs]
  have hsort : List.insertionSort (keyLE Prod.snd) [((0 : ℕ), (1 : ℝ)), (3, 0)] =
      [(3, 0), (0, 1)] := by
    simp only [List.insertionSort, List.orderedInsert]
    rw [if_neg (by norm_num [keyLE])]
  rw [hsort]
  rw [if_neg (by norm_num)]
  simp only [show ([((3 : ℕ), (0 : ℝ)), (0, 1)].zip [((3 : ℕ), (0 : ℝ)), (0, 1)].tail) =
    [(((3 : ℕ), (0 : ℝ)), ((0 : ℕ), (1 : ℝ)))] from rfl]
  simp only [List.flatMap_cons, List.flatMap_nil]
  rw [if_neg (by norm_num : ¬ (3 : ℕ) = 0)]
  simp only [show sqVerts.getD 3 default = (⟨0, 1⟩ : Pt) from rfl,
    show sqVerts.getD 0 default = (⟨0, 0⟩ : Pt) from rfl]
  norm_num [atan2_neg_one_zero, normAngle_neg_pi_div_two, normAngle_five_pi_div_two]

theorem sq_flat :
    sqLines.flatMap (lineEdges sqVerts 1e-6) ++
      ([] : List CircleIn).flatMap (circleEdges sqVerts 1e-6) = sqE := by
  rw [show (([] : List CircleIn).flatMap (circleEdges sqVerts 1e-6)) = [] from rfl,
    List.append_nil, sqLines]
  simp only [List.flatMap_cons, List.flatMap_nil, sq_line0, sq_line1, sq_line2, sq_line3]
  rfl

theorem sq_out0 :
    List.insertionSort (keyLE fun i => (sqE.getD i default).tangentAngleAtFrom)
      [0, 7] = [0, 7] := by
  simp only [List.insertionSort, List.orderedInsert]
  rw [if_pos (show keyLE (fun i => (sqE.getD i default).tangentAngleAtFrom) 0 7 from by
    show (0 : ℝ) ≤ Real.pi / 2
    linarith [Real.pi_pos])]

theorem sq_out1 :
    List.insertionSort (keyLE fun i => (sqE.getD i default).tangentAngleAtFrom)
      [1, 2] = [2, 1] := by
  simp only [List.insertionSort, List.orderedInsert]
  rw [if_neg (show ¬ keyLE (fun i => (sqE.getD i default).tangentAngleAtFrom) 1 2 from by
    show ¬ Real.pi ≤ Real.pi / 2
    linarith [Real.pi_pos])]

theorem sq_out2 :
    List.insertionSort (keyLE fun i => (sqE.getD i default).tangentAngleAtFrom)
      [3, 4] = [4, 3] := by
  simp only [List.insertionSort, List.orderedInsert]
  rw [if_neg (show ¬ keyLE (fun i => (sqE.getD i default).tangentAngleAtFrom) 3 4 from by
    show ¬ Real.pi / 2 + Real.pi ≤ Real.pi
    linarith [Real.pi_pos])]

theorem sq_out3 :
    List.insertionSort (keyLE fun i => (sqE.getD i default).tangentAngleAtFrom)
      [5, 6] = [5, 6] := by
  simp only [List.insertionSort, List.orderedInsert]
  rw [if_pos (show keyLE (fun i => (sqE.getD i default).tangentAngleAtFrom) 5 6 from by
    show (0 : ℝ) ≤ Real.pi / 2 + Real.pi
    linarith [Real.pi_pos])]

/-- The unit-square arrangement evaluates to the explicit node and edge
lists. -/
theorem sq_eval : sqA = sqAval := by
  rw [sqA]
  simp only [buildArrangement]
  rw [sq_flat]
  rw [sqAval]
  simp only [show List.range sqVerts.length = [0, 1, 2, 3] from rfl,
    List.map_cons, List.map_nil]
  simp only [show ((sqE.enum.filter fun p => p.2.src = 0).map Prod.fst) = [0, 7] from rfl,
    show ((sqE.enum.filter fun p => p.2.src = 1).map Prod.fst) = [1, 2] from rfl,
    show ((sqE.enum.filter fun p => p.2.src = 2).map Prod.fst) = [3, 4] from rfl,
    show ((sqE.enum.filter fun p => p.2.src = 3).map Prod.fst) = [5, 6] from rfl,
    sq_out0, sq_out1, sq_out2, sq_out3]
  rfl

/-! ## Step lemmas for evaluating `traceFaces` on concrete arrangements -/

theorem chooseNext_pair_left (A : Arrangement) (base : ℝ) (a b : ℕ)
    (ha : 1e-9 < deltaFromBase A base a) (hb : deltaFromBase A base b ≤ 1e-9) :
    chooseNext A base [a, b] = some a := by
  rw [chooseNext, chooseNextAux]
  rw [if_pos ⟨ha, fun pr hpr => by cases hpr⟩]
  rw [chooseNextAux]
  rw [if_neg (fun hcon => absurd hcon.1 (not_lt.mpr hb))]
  rw [chooseNextAux]
  rfl

theorem chooseNext_pair_right (A : Arrangement) (base : ℝ) (a b : ℕ)
    (ha : deltaFromBase A base a ≤ 1e-9) (hb : 1e-9 < deltaFromBase A base b) :
    chooseNext A base [a, b] = some b := by
  rw [chooseNext, chooseNextAux]
  rw [if_neg (fun hcon => absurd hcon.1 (not_lt.mpr ha))]
  rw [chooseNextAux]
  rw [if_pos ⟨hb, fun pr hpr => by cases hpr⟩]
  rw [chooseNextAux]
  rfl

theorem traceFrom_step (A : Arrangement) (start fuel curr : ℕ) (visited : ℕ → Bool)
    (loop : List ℕ) (nxt : ℕ)
    (hv : visited curr = false)
    (ho : (A.nodes.getD (A.edges.getD curr default).dst default).out ≠ [])
    (hcn : chooseNext A
        (normAngle (arrivalAngle (A.edges.getD curr default) A + Real.pi))
        ((A.nodes.getD (A.edges.getD curr default).dst default).out) = some nxt) :
    traceFrom A start (fuel + 1) curr visited loop =
      if nxt = start then (mark visited curr, some (loop ++ [curr]))
      else traceFrom A start fuel nxt (mark visited curr) (loop ++ [curr]) := by
  simp only [traceFrom]
  rw [if_neg (by rw [hv]; exact Bool.false_ne_true), if_neg ho, hcn]

theorem traceFacesAux_skip (A : Arrangement) (start : ℕ) (rest : List ℕ)
    (visited : ℕ → Bool) (loops : List (List ℕ)) (h : visited start = true) :
    traceFacesAux A (start :: rest) visited loops = traceFacesAux A rest visited loops := by
  simp only [traceFacesAux]
  rw [if_pos h]

theorem traceFacesAux_run_some (A : Arrangement) (start : ℕ) (rest : List ℕ)
    (visited : ℕ → Bool) (loops : List (List ℕ)) (vis2 : ℕ → Bool) (loop : List ℕ)
    (h : visited start = false)
    (hres : traceFrom A start 10000 start visited [] = (vis2, some loop)) :
    traceFacesAux A (start :: rest) visited loops =
      traceFacesAux A rest vis2 (loops ++ [loop]) := by
  simp only [traceFacesAux]
  rw [if_neg (by rw [h]; exact Bool.false_ne_true), hres]

/-! ## Tracing the unit-square arrangement -/

theorem sq_base0 :
    normAngle (arrivalAngle (sqAval.edges.getD 0 default) sqAval + Real.pi) = Real.pi := by
  rw [show arrivalAngle (sqAval.edges.getD 0 default) sqAval =
    normAngle (atan2 ((0 : ℝ) - 0) (1 - 0)) from rfl]
  norm_num [atan2_zero_one, normAngle_zero, normAngle_pi]

theorem sq_cn0 : chooseNext sqAval
    (normAngle (arrivalAngle (sqAval.edges.getD 0 default) sqAval + Real.pi))
    ((sqAval.nodes.getD (sqAval.edges.getD 0 default).dst default).out) = some 2 := by
  rw [sq_base0,
    show ((sqAval.nodes.getD (sqAval.edges.getD 0 default).dst default).out) = [2, 1]
      from rfl]
  apply chooseNext_pair_left
  · rw [deltaFromBase,
      show (sqAval.edges.getD 2 default).tangentAngleAtFrom = Real.pi / 2 from rfl,
      show Real.pi / 2 - Real.pi = -(Real.pi / 2) from by ring, normAngle_neg_pi_div_two]
    linarith [Real.pi_gt_3141592]
  · rw [deltaFromBase,
      show (sqAval.edges.getD 1 default).tangentAngleAtFrom = Real.pi from rfl,
      sub_self, normAngle_zero]
    norm_num

theorem sq_base2 :
    normAngle (arrivalAngle (sqAval.edges.getD 2 default) sqAval + Real.pi) =
      Real.pi / 2 + Real.pi := by
  rw [show arrivalAngle (sqAval.edges.getD 2 default) sqAval =
    normAngle (atan2 ((1 : ℝ) - 0) (1 - 1)) from rfl]
  norm_num [atan2_one_zero, normAngle_pi_div_two, normAngle_three_pi_div_two]

theorem sq_cn2 : chooseNext sqAval
    (normAngle (arrivalAngle (sqAval.edges.getD 2 default) sqAval + Real.pi))
    ((sqAval.nodes.getD (sqAval.edges.getD 2 default).dst default).out) = some 4 := by
  rw [sq_base2,
    show ((sqAval.nodes.getD (sqAval.edges.getD 2 default).dst default).out) = [4, 3]
      from rfl]
  apply chooseNext_pair_left
  · rw [deltaFromBase,
      show (sqAval.edges.getD 4 default).tangentAngleAtFrom = Real.pi from rfl,
      show Real.pi - (Real.pi / 2 + Real.pi) = -(Real.pi / 2) from by ring,
      normAngle_neg_pi_div_two]
    linarith [Real.pi_gt_3141592]
  · rw [deltaFromBase,
      show (sqAval.edges.getD 3 default).tangentAngleAtFrom = Real.pi / 2 + Real.pi
        from rfl,
      sub_self, normAngle_zero]
    norm_num

theorem sq_base4 :
    normAngle (arrivalAngle (sqAval.edges.getD 4 default) sqAval + Real.pi) = 0 := by
  rw [show arrivalAngle (sqAval.edges.getD 4 default) sqAval =
    normAngle (atan2 ((1 : ℝ) - 1) (0 - 1)) from rfl]
  norm_num [atan2_zero_neg_one, normAngle_pi, normAngle_two_pi]

theorem sq_cn4 : chooseNext sqAval
    (normAngle (arrivalAngle (sqAval.edges.getD 4 default) sqAval + Real.pi))
    ((sqAval.nodes.getD (sqAval.edges.getD 4 default).dst default).out) = some 6 := by
  rw [sq_base4,
    show ((sqAval.nodes.getD (sqAval.edges.getD 4 default).dst default).out) = [5, 6]
      from rfl]
  apply chooseNext_pair_right
  · rw [deltaFromBase,
      show (sqAval.edges.getD 5 default).tangentAngleAtFrom = (0 : ℝ) from rfl,
      sub_self, normAngle_zero]
    norm_num
  · rw [deltaFromBase,
      show (sqAval.edges.getD 6 default).tangentAngleAtFrom = Real.pi / 2 + Real.pi
        from rfl,
      sub_zero, normAngle_three_pi_div_two]
    linarith [Real.pi_gt_3141592]

theorem sq_base6 :
    normAngle (arrivalAngle (sqAval.edges.getD 6 default) sqAval + Real.pi) =
      Real.pi / 2 := by
  rw [show arrivalAngle (sqAval.edges.getD 6 default) sqAval =
    normAngle (atan2 ((0 : ℝ) - 1) (0 - 0)) from rfl]
  norm_num [atan2_neg_one_zero, normAngle_neg_pi_div_two, normAngle_five_pi_div_two]

theorem sq_cn6 : chooseNext sqAval
    (normAngle (arrivalAngle (sqAval.edges.getD 6 default) sqAval + Real.pi))
    ((sqAval.nodes.getD (sqAval.edges.getD 6 default).dst default).out) = some 0 := by
  rw [sq_base6,
    show ((sqAval.nodes.getD (sqAval.edges.getD 6 default).dst default).out) = [0, 7]
      from rfl]
  apply chooseNext_pair_left
  · rw [deltaFromBase,
      show (sqAval.edges.getD 0 default).tangentAngleAtFrom = (0 : ℝ) from rfl,
      show (0 : ℝ) - Real.pi / 2 = -(Real.pi / 2) from by ring, normAngle_neg_pi_div_two]
    linarith [Real.pi_gt_3141592]
  · rw [deltaFromBase,
      show (sqAval.edges.getD 7 default).tangentAngleAtFrom = Real.pi / 2 from rfl,
      sub_self, normAngle_zero]
    norm_num

theorem sq_base1 :
    normAngle (arrivalAngle (sqAval.edges.getD 1 default) sqAval + Real.pi) = 0 := by
  rw [show arrivalAngle (sqAval.edges.getD 1 default) sqAval =
    normAngle (atan2 ((0 : ℝ) - 0) (0 - 1)) from rfl]
  norm_num [atan2_zero_neg_one, normAngle_pi, normAngle_two_pi]

theorem sq_cn1 : chooseNext sqAval
    (normAngle (arrivalAngle (sqAval.edges.getD 1 default) sqAval + Real.pi))
    ((sqAval.nodes.getD (sqAval.edges.getD 1 default).dst default).out) = some 7 := by
  rw [sq_base1,
    show ((sqAval.nodes.getD (sqAval.edges.getD 1 default).dst default).out) = [0, 7]
      from rfl]
  apply chooseNext_pair_right
  · rw [deltaFromBase,
      show (sqAval.edges.getD 0 default).tangentAngleAtFrom = (0 : ℝ) from rfl,
      sub_self, normAngle_zero]
    norm_num
  · rw [deltaFromBase,
      show (sqAval.edges.getD 7 default).tangentAngleAtFrom = Real.pi / 2 from rfl,
      sub_zero, normAngle_pi_div_two]
    linarith [Real.pi_gt_3141592]

theorem sq_base7 :
    normAngle (arrivalAngle (sqAval.edges.getD 7 default) sqAval + Real.pi) =
      Real.pi / 2 + Real.pi := by
  rw [show arrivalAngle (sqAval.edges.getD 7 default) sqAval =
    normAngle (atan2 ((1 : ℝ) - 0) (0 - 0)) from rfl]
  norm_num [atan2_one_zero, normAngle_pi_div_two, normAngle_three_pi_div_two]

theorem sq_cn7 : chooseNext sqAval
    (normAngle (arrivalAngle (sqAval.edges.getD 7 default) sqAval + Real.pi))
    ((sqAval.nodes.getD (sqAval.edges.getD 7 default).dst default).out) = some 5 := by
  rw [sq_base7,
    show ((sqAval.nodes.getD (sqAval.edges.getD 7 default).dst default).out) = [5, 6]
      from rfl]
  apply chooseNext_pair_left
  · rw [deltaFromBase,
      show (sqAval.edges.getD 5 default).tangentAngleAtFrom = (0 : ℝ) from rfl,
      show (0 : ℝ) - (Real.pi / 2 + Real.pi) = -(Real.pi / 2 + Real.pi) from by ring,
      normAngle_neg_three_pi_div_two]
    linarith [Real.pi_gt_3141592]
  · rw [deltaFromBase,
      show (sqAval.edges.getD 6 default).tangentAngleAtFrom = Real.pi / 2 + Real.pi
        from rfl,
      sub_self, normAngle_zero]
    norm_num

theorem sq_base5 :
    normAngle (arrivalAngle (sqAval.edges.getD 5 default) sqAval + Real.pi) = Real.pi := by
  rw [show arrivalAngle (sqAval.edges.getD 5 default) sqAval =
    normAngle (atan2 ((1 : ℝ) - 1) (1 - 0)) from rfl]
  norm_num [atan2_zero_one, normAngle_zero, normAngle_pi]

theorem sq_cn5 : chooseNext sqAval
    (normAngle (arrivalAngle (sqAval.edges.getD 5 default) sqAval + Real.pi))
    ((sqAval.nodes.getD (sqAval.edges.getD 5 default).dst default).out) = some 3 := by
  rw [sq_base5,
    show ((sqAval.nodes.getD (sqAval.edges.getD 5 default).dst default).out) = [4, 3]
      from rfl]
  apply chooseNext_pair_right
  · rw [deltaFromBase,
      show (sqAval.edges.getD 4 default).tangentAngleAtFrom = Real.pi from rfl,
      sub_self, normAngle_zero]
    norm_num
  · rw [deltaFromBase,
      show (sqAval.edges.getD 3 default).tangentAngleAtFrom = Real.pi / 2 + Real.pi
        from rfl,
      show Real.pi / 2 + Real.pi - Real.pi = Real.pi / 2 from by ring, normAngle_pi_div_two]
    linarith [Real.pi_gt_3141592]

theorem sq_base3 :
    normAngle (arrivalAngle (sqAval.edges.getD 3 default) sqAval + Real.pi) =
      Real.pi / 2 := by
  rw [show arrivalAngle (sqAval.edges.getD 3 default) sqAval =
    normAngle (atan2 ((0 : ℝ) - 1) (1 - 1)) from rfl]
  norm_num [atan2_neg_one_zero, normAngle_neg_pi_div_two, normAngle_five_pi_div_two]

theorem sq_cn3 : chooseNext sqAval
    (normAngle (arrivalAngle (sqAval.edges.getD 3 default) sqAval + Real.pi))
    ((sqAval.nodes.getD (sqAval.edges.getD 3 default).dst default).out) = some 1 := by
  rw [sq_base3,
    show ((sqAval.nodes.getD (sqAval.edges.getD 3 default).dst default).out) = [2, 1]
      from rfl]
  apply chooseNext_pair_right
  · rw [deltaFromBase,
      show (sqAval.edges.getD 2 default).tangentAngleAtFrom = Real.pi / 2 from rfl,
      sub_self, normAngle_zero]
    norm_num
  · rw [deltaFromBase,
      show (sqAval.edges.getD 1 default).tangentAngleAtFrom = Real.pi from rfl,
      show Real.pi - Real.pi / 2 = Real.pi / 2 from by ring, normAngle_pi_div_two]
    linarith [Real.pi_gt_3141592]

/-- The traced faces of the unit-square arrangement: the CCW inner square and
the CW outer walk. -/
theorem sq_traceFaces : traceFaces sqAval = [[0, 2, 4, 6], [1, 7, 5, 3]] := by
  have s1 : traceFrom sqAval 0 10000 0 (fun _ => false) [] =
      traceFrom sqAval 0 9999 2 (mark (fun _ => false) 0) [0] := by
    rw [show (10000 : ℕ) = 9999 + 1 from rfl,
      traceFrom_step sqAval 0 9999 0 (fun _ => false) [] 2 rfl (by decide) sq_cn0,
      if_neg (by norm_num), List.nil_append]
  have s2 : traceFrom sqAval 0 9999 2 (mark (fun _ => false) 0) [0] =
      traceFrom sqAval 0 9998 4 (mark (mark (fun _ => false) 0) 2) [0, 2] := by
    rw [show (9999 : ℕ) = 9998 + 1 from rfl,
      traceFrom_step sqAval 0 9998 2 (mark (fun _ => false) 0) [0] 4 rfl (by decide) sq_cn2,
      if_neg (by norm_num)]
    rfl
  have s3 : traceFrom sqAval 0 9998 4 (mark (mark (fun _ => false) 0) 2) [0, 2] =
      traceFrom sqAval 0 9997 6 (mark (mark (mark (fun _ => false) 0) 2) 4) [0, 2, 4] := by
    rw [show (9998 : ℕ) = 9997 + 1 from rfl,
      traceFrom_step sqAval 0 9997 4 (mark (mark (fun _ => false) 0) 2) [0, 2] 6 rfl
        (by decide) sq_cn4,
      if_neg (by norm_num)]
    rfl
  have s4 : traceFrom sqAval 0 9997 6 (mark (mark (mark (fun _ => false) 0) 2) 4)
      [0, 2, 4] =
      (mark (mark (mark (mark (fun _ => false) 0) 2) 4) 6, some [0, 2, 4, 6]) := by
    rw [show (9997 : ℕ) = 9996 + 1 from rfl,
      traceFrom_step sqAval 0 9996 6 (mark (mark (mark (fun _ => false) 0) 2) 4)
        [0, 2, 4] 0 rfl (by decide) sq_cn6,
      if_pos rfl]
    rfl
  have trace1 : traceFrom sqAval 0 10000 0 (fun _ => false) [] =
      (mark (mark (mark (mark (fun _ => false) 0) 2) 4) 6, some [0, 2, 4, 6]) := by
    rw [s1, s2, s3, s4]
  have t1 : traceFrom sqAval 1 10000 1
      (mark (mark (mark (mark (fun _ => false) 0) 2) 4) 6) [] =
      traceFrom sqAval 1 9999 7
        (mark (mark (mark (mark (mark (fun _ => false) 0) 2) 4) 6) 1) [1] := by
    rw [show (10000 : ℕ) = 9999 + 1 from rfl,
      traceFrom_step sqAval 1 9999 1 (mark (mark (mark (mark (fun _ => false) 0) 2) 4) 6)
        [] 7 rfl (by decide) sq_cn1,
      if_neg (by norm_num), List.nil_append]
  have t2 : traceFrom sqAval 1 9999 7
      (mark (mark (mark (mark (mark (fun _ => false) 0) 2) 4) 6) 1) [1] =
      traceFrom sqAval 1 9998 5
        (mark (mark (mark (mark (mark (mark (fun _ => false) 0) 2) 4) 6) 1) 7) [1, 7] := by
    rw [show (9999 : ℕ) = 9998 + 1 from rfl,
      traceFrom_step sqAval 1 9998 7
        (mark (mark (mark (mark (mark (fun _ => false) 0) 2) 4) 6) 1) [1] 5 rfl
        (by decide) sq_cn7,
      if_neg (by norm_num)]
    rfl
  have t3 : traceFrom sqAval 1 9998 5
      (mark (mark (mark (mark (mark (mark (fun _ => false) 0) 2) 4) 6) 1) 7) [1, 7] =
      traceFrom sqAval 1 9997 3
        (mark (mark (mark (mark (mark (mark (mark (fun _ => false) 0) 2) 4) 6) 1) 7) 5)
        [1, 7, 5] := by
    rw [show (9998 : ℕ) = 9997 + 1 from rfl,
      traceFrom_step sqAval 1 9997 5
        (mark (mark (mark (mark (mark (mark (fun _ => false) 0) 2) 4) 6) 1) 7) [1, 7] 3 rfl
        (by decide) sq_cn5,
      if_neg (by norm_num)]
    rfl
  have t4 : traceFrom sqAval 1 9997 3
      (mark (mark (mark (mark (mark (mark (mark (fun _ => false) 0) 2) 4) 6) 1) 7) 5)
      [1, 7, 5] =
      (mark (mark (mark (mark (mark (mark (mark (mark (fun _ => false) 0) 2) 4) 6) 1) 7) 5)
        3, some [1, 7, 5, 3]) := by
    rw [show (9997 : ℕ) = 9996 + 1 from rfl,
      traceFrom_step sqAval 1 9996 3
        (mark (mark (mark (mark (mark (mark (mark (fun _ => false) 0) 2) 4) 6) 1) 7) 5)
        [1, 7, 5] 1 rfl (by decide) sq_cn3,
      if_pos rfl]
    rfl
  have trace2 : traceFrom sqAval 1 10000 1
      (mark (mark (mark (mark (fun _ => false) 0) 2) 4) 6) [] =
      (mark (mark (mark (mark (mark (mark (mark (mark (fun _ => false) 0) 2) 4) 6) 1) 7) 5)
        3, some [1, 7, 5, 3]) := by
    rw [t1, t2, t3, t4]
  rw [traceFaces, show List.range sqAval.edges.length = [0, 1, 2, 3, 4, 5, 6, 7] from rfl]
  rw [traceFacesAux_run_some sqAval 0 [1, 2, 3, 4, 5, 6, 7] (fun _ => false) [] _ _
    rfl trace1]
  rw [traceFacesAux_run_some sqAval 1 [2, 3, 4, 5, 6, 7] _ _ _ _ rfl trace2]
  rw [traceFacesAux_skip _ _ _ _ _ rfl, traceFacesAux_skip _ _ _ _ _ rfl,
    traceFacesAux_skip _ _ _ _ _ rfl, traceFacesAux_skip _ _ _ _ _ rfl,
    traceFacesAux_skip _ _ _ _ _ rfl, traceFacesAux_skip _ _ _ _ _ rfl]
  rw [traceFacesAux]
  rfl

theorem sq_path : loopToPath sqAval [0, 2, 4, 6] =
    ⟨⟨0, 0⟩, [.L ⟨1, 0⟩, .L ⟨1, 1⟩, .L ⟨0, 1⟩, .L ⟨0, 0⟩]⟩ := rfl

theorem sq_open : pathToPolylineOpen (loopToPath sqAval [0, 2, 4, 6]) (Real.pi / 24) =
    sqPoly := rfl

theorem sq_not_closes : ¬ pathCloses (loopToPath sqAval [0, 2, 4, 6]) (Real.pi / 24) := by
  rw [pathCloses, sq_open]
  rw [show (sqPoly.headD default) = (⟨0, 0⟩ : Pt) from rfl,
    show (sqPoly.getLastD default) = (⟨0, 0⟩ : Pt) from rfl]
  norm_num [approxEq]

theorem sq_polyline : pathToPolyline (loopToPath sqAval [0, 2, 4, 6]) = sqPoly := by
  rw [pathToPolyline, if_neg sq_not_closes]
  exact sq_open

theorem sq_ring : ringPairs sqPoly =
    [(⟨0, 0⟩, ⟨0, 0⟩), (⟨0, 0⟩, ⟨1, 0⟩), (⟨1, 0⟩, ⟨1, 1⟩),
     (⟨1, 1⟩, ⟨0, 1⟩), (⟨0, 1⟩, ⟨0, 0⟩)] := rfl

theorem sq_area : polylineArea sqPoly = 1 := by
  rw [polylineArea, sq_ring]
  simp only [List.foldl_cons, List.foldl_nil]
  norm_num

/-- C6: on the four unit-length lines forming a closed unit square, the trace
yields a loop whose materialized polyline has unsigned area exactly `1`. -/
theorem square_area_roundtrip :
    ∃ L ∈ traceFaces (buildArrangement sqLines [] sqVerts 1e-6),
      |polylineArea (pathToPolyline (loopToPath
        (buildArrangement sqLines [] sqVerts 1e-6) L))| = 1 := by
  have hb : buildArrangement sqLines [] sqVerts 1e-6 = sqAval := sq_eval
  rw [hb, sq_traceFaces]
  refine ⟨[0, 2, 4, 6], by simp, ?_⟩
  rw [sq_polyline, sq_area, abs_one]

theorem pointNearSegment_false_of (p a b : Pt) (eps : ℝ)
    (h : ∀ t : ℝ, eps < hypot (p.x - (a.x + t * (b.x - a.x)))
      (p.y - (a.y + t * (b.y - a.y)))) :
    pointNearSegment p a b eps = false := by
  cases h' : pointNearSegment p a b eps
  · rfl
  · exfalso
    obtain ⟨t, _, _, hd⟩ := (pointNearSegment_iff p a b eps).mp h'
    exact absurd hd (not_le.mpr (h t))

theorem sq_near1 : pointNearSegment ⟨1/2, 1/2⟩ ⟨0, 0⟩ ⟨0, 0⟩ = false := by
  apply pointNearSegment_false_of
  intro t
  apply lt_of_lt_of_le _ (abs_le_hypot_left _ _)
  have h : (⟨1/2, 1/2⟩ : Pt).x - ((⟨0, 0⟩ : Pt).x + t * ((⟨0, 0⟩ : Pt).x - (⟨0, 0⟩ : Pt).x)) =
      1/2 := by norm_num
  rw [h, abs_of_nonneg (by norm_num : (0 : ℝ) ≤ 1/2)]
  norm_num

theorem sq_near2 : pointNearSegment ⟨1/2, 1/2⟩ ⟨0, 0⟩ ⟨1, 0⟩ = false := by
  apply pointNearSegment_false_of
  intro t
  apply lt_of_lt_of_le _ (abs_le_hypot_right _ _)
  have h : (⟨1/2, 1/2⟩ : Pt).y - ((⟨0, 0⟩ : Pt).y + t * ((⟨1, 0⟩ : Pt).y - (⟨0, 0⟩ : Pt).y)) =
      1/2 := by norm_num
  rw [h, abs_of_nonneg (by norm_num : (0 : ℝ) ≤ 1/2)]
  norm_num

theorem sq_near3 : pointNearSegment ⟨1/2, 1/2⟩ ⟨1, 0⟩ ⟨1, 1⟩ = false := by
  apply pointNearSegment_false_of
  intro t
  apply lt_of_lt_of_le _ (abs_le_hypot_left _ _)
  have h : (⟨1/2, 1/2⟩ : Pt).x - ((⟨1, 0⟩ : Pt).x + t * ((⟨1, 1⟩ : Pt).x - (⟨1, 0⟩ : Pt).x)) =
      -(1/2) := by norm_num
  rw [h, abs_neg, abs_of_nonneg (by norm_num : (0 : ℝ) ≤ 1/2)]
  norm_num

theorem sq_near4 : pointNearSegment ⟨1/2, 1/2⟩ ⟨1, 1⟩ ⟨0, 1⟩ = false := by
  apply pointNearSegment_false_of
  intro t
  apply lt_of_lt_of_le _ (abs_le_hypot_right _ _)
  have h : (⟨1/2, 1/2⟩ : Pt).y - ((⟨1, 1⟩ : Pt).y + t * ((⟨0, 1⟩ : Pt).y - (⟨1, 1⟩ : Pt).y)) =
      -(1/2) := by norm_num
  rw [h, abs_neg, abs_of_nonneg (by norm_num : (0 : ℝ) ≤ 1/2)]
  norm_num

theorem sq_near5 : pointNearSegment ⟨1/2, 1/2⟩ ⟨0, 1⟩ ⟨0, 0⟩ = false := by
  apply pointNearSegment_false_of
  intro t
  apply lt_of_lt_of_le _ (abs_le_hypot_left _ _)
  have h : (⟨1/2, 1/2⟩ : Pt).x - ((⟨0, 1⟩ : Pt).x + t * ((⟨0, 0⟩ : Pt).x - (⟨0, 1⟩ : Pt).x)) =
      1/2 := by norm_num
  rw [h, abs_of_nonneg (by norm_num : (0 : ℝ) ≤ 1/2)]
  norm_num

theorem sq_parity : rayParity ⟨1/2, 1/2⟩ sqPoly = true := by
  rw [rayParity, sq_ring]
  simp only [List.foldl_cons, List.foldl_nil]
  norm_num

theorem sq_contains : pointInPolyline ⟨1/2, 1/2⟩ sqPoly = true := by
  have hany : ((ringPairs sqPoly).any fun pr =>
      pointNearSegment ⟨1/2, 1/2⟩ pr.1 pr.2) = false := by
    rw [sq_ring]
    simp only [List.any_cons, List.any_nil]
    rw [sq_near1, sq_near2, sq_near3, sq_near4, sq_near5]
    rfl
  rw [pointInPolyline]
  rw [if_neg (by rw [hany]; exact Bool.false_ne_true)]
  exact sq_parity

theorem sq_fill_ne_nil : fillCandidates sqAval ⟨1/2, 1/2⟩ ≠ [] := by
  have hmem : (⟨loopToPath sqAval [0, 2, 4, 6],
      pathToPolyline (loopToPath sqAval [0, 2, 4, 6]),
      |polylineArea (pathToPolyline (loopToPath sqAval [0, 2, 4, 6]))|⟩ : Candidate) ∈
      fillCandidates sqAval ⟨1/2, 1/2⟩ := by
    rw [fillCandidates, sq_traceFaces]
    apply List.mem_filter.mpr
    constructor
    · exact List.mem_map_of_mem _ (by simp)
    · simp only [sq_polyline, sq_area, abs_one]
      rw [Bool.and_eq_true]
      exact ⟨sq_contains, decide_eq_true (by norm_num)⟩
  exact List.ne_nil_of_mem hmem

/-- Witness for C1: clicking the center of the unit square yields a
non-empty candidate set, and the selection is a minimal-area member. -/
theorem fillRegion_min_witness :
    fillCandidates sqAval ⟨1/2, 1/2⟩ ≠ [] ∧
    ∃ c, fillRegion sqAval ⟨1/2, 1/2⟩ = some c ∧ c ∈ fillCandidates sqAval ⟨1/2, 1/2⟩ ∧
      ∀ c' ∈ fillCandidates sqAval ⟨1/2, 1/2⟩, c.area ≤ c'.area :=
  ⟨sq_fill_ne_nil, fillRegion_min sqAval ⟨1/2, 1/2⟩ sq_fill_ne_nil⟩

theorem sq_loop_mem :
    [0, 2, 4, 6] ∈ traceFaces (buildArrangement sqLines [] sqVerts 1e-6) := by
  rw [show buildArrangement sqLines [] sqVerts 1e-6 = sqAval from sq_eval, sq_traceFaces]
  simp

/-- Witness for C4: the CCW square loop is non-empty and closes up. -/
theorem traceFaces_loops_closed_witness :
    ([0, 2, 4, 6] : List ℕ) ≠ [] ∧
    ((buildArrangement sqLines [] sqVerts 1e-6).edges.getD
        (([0, 2, 4, 6] : List ℕ).getLastD 0) default).dst =
      ((buildArrangement sqLines [] sqVerts 1e-6).edges.getD
        (([0, 2, 4, 6] : List ℕ).headD 0) default).src :=
  traceFaces_loops_closed sqLines [] sqVerts 1e-6 [0, 2, 4, 6] sq_loop_mem

/-- Witness for C10: in the CCW square loop, the second half-edge starts
where the first one ends. -/
theorem traceFaces_loops_chain_witness :
    ((buildArrangement sqLines [] sqVerts 1e-6).edges.getD
        (([0, 2, 4, 6] : List ℕ).getD (0 + 1) 0) default).src =
      ((buildArrangement sqLines [] sqVerts 1e-6).edges.getD
        (([0, 2, 4, 6] : List ℕ).getD 0 0) default).dst :=
  traceFaces_loops_chain sqLines [] sqVerts 1e-6 [0, 2, 4, 6] sq_loop_mem 0 (by norm_num)

end Geologo
